import Mathlib

/-!
Verification of the BMOS RTOS core against its C sources: binary and counting
semaphores (src/rtos/sys/semaphore/semaphore.c), the task scheduler
(src/rtos/sys/task/task.c) and the intrusive circular doubly linked list
(src/rtos/util/list/list.c).  Every definition is a shallow embedding of the
corresponding C function; machine integers that can never wrap in the modelled
executions are carried as Nat/Int.
-/

namespace BMOS

/-- syserr_t from sys/err.h. -/
inductive syserr
  | SYS_OK
  | ERR_FAIL
  | ERR_BADPARAM
  | ERR_NOMEM
  | ERR_INUSE
  | ERR_NOSUPPORT
  | ERR_DEVICE
  | ERR_TIMEOUT
  | ERR_NOTINIT
  | ERR_SCHEDULER
  deriving DecidableEq, Repr

/-- semaphore_type_t from semaphore.c. -/
inductive semaphore_type
  | SEMAPHORE_COUNTING
  | SEMAPHORE_BINARY
  deriving DecidableEq, Repr

/-- SYS_TIMEOUT_INF from semaphore.h: the infinite-timeout sentinel. -/
def SYS_TIMEOUT_INF : Int := -1

/-- waiting_task_t from semaphore.c: the task handle and the delay the task
requested on pend.  The intrusive list_state node of an entry is represented
by the entry's position in the waiting list. -/
structure waiting_task where
  task : Nat
  delay : Int
  deriving DecidableEq, Repr

/-- semaphore_state_t from semaphore.c.  The per-instance spin lock guards the
O(1) critical sections and is not part of the serialized state.  value is the
C 32-bit `volatile unsigned int`, carried as Int with every store reduced
modulo 2^32 = 4294967296 exactly where the C can wrap: the decrements are
guarded by `value > 0` and cannot wrap, while the increment in semaphore_post
is unguarded and wraps. -/
structure semaphore_state where
  value : Int
  type : semaphore_type
  waiting_tasks : List waiting_task
  deriving DecidableEq, Repr

/-- semaphore_create_counting from semaphore.c. -/
def semaphore_create_counting (start : Nat) : semaphore_state :=
  { value := (start : Int), type := .SEMAPHORE_COUNTING, waiting_tasks := [] }

/-- semaphore_create_binary from semaphore.c: a binary semaphore always starts
at value 0. -/
def semaphore_create_binary : semaphore_state :=
  { value := 0, type := .SEMAPHORE_BINARY, waiting_tasks := [] }

/-- semaphore_post from semaphore.c.  The unguarded `sem->value++` is a
32-bit unsigned increment, so it wraps modulo 2^32.  Returns the new
semaphore state together with the waiting entry that gets woken (the head of
the waiting list), if any: the C unblocks that entry's task via unblock_task
when its delay is SYS_TIMEOUT_INF and via unblock_delayed_task otherwise, but
never modifies the waiting list itself (the pending task removes its own
entry). -/
def semaphore_post (s : semaphore_state) : semaphore_state × Option waiting_task :=
  if s.type = .SEMAPHORE_BINARY ∧ s.value = 1 then (s, none)
  else ({ s with value := (s.value + 1) % 4294967296 }, s.waiting_tasks.head?)

/-- Iterated semaphore_post: the posts delivered to the semaphore by other
tasks while a pending task is blocked (the serial oracle for the blocking
window of semaphore_pend). -/
def apply_posts (s : semaphore_state) : Nat → semaphore_state
  | 0 => s
  | p + 1 => apply_posts (semaphore_post s).1 p

/-- Removal of the pending task's own queue entry at the end of
semaphore_pend.  The entry was placed at the tail by list_append and nothing
in the serial model touches the waiting list between the append and the
list_remove (semaphore_post never modifies it), so the detached node is the
tail of the list. -/
def remove_own_entry (s : semaphore_state) : semaphore_state :=
  { s with waiting_tasks := s.waiting_tasks.dropLast }

/-- semaphore_pend from semaphore.c, serialized.  `tid` is the pending task
(get_active_task) and `posts` is the number of posts delivered while the task
is blocked or delayed.  The Bool records whether this pend decremented the
semaphore value (the internal success/timeout outcome); `none` models a call
that never returns (infinite timeout with no post: the C loops on
block_active_task forever).  The C function itself is declared `void`; see
semaphore_pend_ret. -/
def semaphore_pend (s : semaphore_state) (delay : Int) (tid : Nat) (posts : Nat) :
    Option (semaphore_state × Bool) :=
  if 0 < s.value then
    some ({ s with value := s.value - 1 }, true)
  else
    let s1 := { s with waiting_tasks := s.waiting_tasks ++ [⟨tid, delay⟩] }
    if delay = SYS_TIMEOUT_INF then
      let s2 := apply_posts s1 posts
      if 0 < s2.value then
        some (remove_own_entry { s2 with value := s2.value - 1 }, true)
      else
        none
    else
      let s2 := apply_posts s1 posts
      if 0 < s2.value then
        some (remove_own_entry { s2 with value := s2.value - 1 }, true)
      else
        some (remove_own_entry s2, false)

/-- The value the C caller of semaphore_pend receives.  The function is
declared `void semaphore_pend(semaphore_t sem, int delay)` in semaphore.h, so
a completed call carries no information: the model maps every completed
execution to the single value of Unit (`none` still marks a call that never
returns). -/
def semaphore_pend_ret (s : semaphore_state) (delay : Int) (tid : Nat) (posts : Nat) :
    Option Unit :=
  (semaphore_pend s delay tid posts).map (fun _ => ())

/-- semaphore_destroy from semaphore.c: fails with ERR_BADPARAM while the
waiting list is non-empty (the C checks `waiting_tasks != NULL`), leaving the
semaphore untouched; otherwise frees the semaphore (`none`) and returns
SYS_OK. -/
def semaphore_destroy (s : semaphore_state) : syserr × Option semaphore_state :=
  if s.waiting_tasks ≠ [] then (.ERR_BADPARAM, some s)
  else (.SYS_OK, none)

/-- One serially observable semaphore operation: a post, or a pend with its
requested delay and the posts delivered during its blocking window. -/
inductive sem_op
  | op_pend (delay : Int) (posts : Nat)
  | op_post
  deriving DecidableEq, Repr

/-- State after one serial semaphore operation.  A pend that never completes
(infinite timeout, no post) contributes no completed operation, so it leaves
the observed state unchanged. -/
def sem_step (s : semaphore_state) : sem_op → semaphore_state
  | .op_pend delay posts =>
      match semaphore_pend s delay 0 posts with
      | some (s1, _) => s1
      | none => s
  | .op_post => (semaphore_post s).1

/-- State after a serial sequence of semaphore operations. -/
def sem_run (s : semaphore_state) : List sem_op → semaphore_state
  | [] => s
  | op :: rest => sem_run (sem_step s op) rest

/-- Whether a pend starting from state s decrements the semaphore value (a
successful pend in the sense of the spec). -/
def pend_decrements (s : semaphore_state) (delay : Int) (posts : Nat) : Bool :=
  match semaphore_pend s delay 0 posts with
  | some (_, b) => b
  | none => false

/-- Number of posts actually applied to the semaphore by one operation: a post
is one, and a pend applies its blocking-window posts only when it takes the
blocked path (the fast path returns before any post arrives). -/
def posts_applied (s : semaphore_state) : sem_op → Nat
  | .op_post => 1
  | .op_pend _ p => if 0 < s.value then 0 else p

/-- Total number of posts applied across a serial sequence. -/
def total_posts : semaphore_state → List sem_op → Nat
  | _, [] => 0
  | s, op :: rest => posts_applied s op + total_posts (sem_step s op) rest

/-- Number of value decrements one operation performs: a post never
decrements, a pend decrements exactly when it succeeds. -/
def success_of (s : semaphore_state) : sem_op → Nat
  | .op_post => 0
  | .op_pend d p => if pend_decrements s d p then 1 else 0

/-- Total number of value-decrementing (successful) pends across a serial
sequence. -/
def total_successes : semaphore_state → List sem_op → Nat
  | _, [] => 0
  | s, op :: rest => success_of s op + total_successes (sem_step s op) rest

theorem sem_state_ext (a b : semaphore_state) (h1 : a.value = b.value)
    (h2 : a.type = b.type) (h3 : a.waiting_tasks = b.waiting_tasks) : a = b := by
  cases a; cases b; simp_all

theorem post_fst (s : semaphore_state) :
    (semaphore_post s).1 =
      if s.type = .SEMAPHORE_BINARY ∧ s.value = 1 then s
      else { s with value := (s.value + 1) % 4294967296 } := by
  unfold semaphore_post
  split <;> rfl

theorem post_type (s : semaphore_state) : (semaphore_post s).1.type = s.type := by
  rw [post_fst]; split <;> rfl

theorem post_waiting (s : semaphore_state) :
    (semaphore_post s).1.waiting_tasks = s.waiting_tasks := by
  rw [post_fst]; split <;> rfl

theorem post_counting_value (s : semaphore_state) (ht : s.type = .SEMAPHORE_COUNTING) :
    (semaphore_post s).1.value = (s.value + 1) % 4294967296 := by
  rw [post_fst, if_neg]
  intro h
  rw [ht] at h
  exact absurd h.1 (by decide)

theorem apply_posts_type (p : Nat) (s : semaphore_state) :
    (apply_posts s p).type = s.type := by
  induction p generalizing s with
  | zero => rfl
  | succ p ih => rw [apply_posts, ih, post_type]

theorem apply_posts_waiting (p : Nat) (s : semaphore_state) :
    (apply_posts s p).waiting_tasks = s.waiting_tasks := by
  induction p generalizing s with
  | zero => rfl
  | succ p ih => rw [apply_posts, ih, post_waiting]

theorem apply_posts_value_counting (p : Nat) (s : semaphore_state)
    (ht : s.type = .SEMAPHORE_COUNTING) (h0 : 0 ≤ s.value)
    (hM : s.value < 4294967296) :
    (apply_posts s p).value = (s.value + p) % 4294967296 := by
  induction p generalizing s with
  | zero =>
      show s.value = (s.value + ((0 : Nat) : Int)) % 4294967296
      push_cast
      omega
  | succ p ih =>
      have ht2 : (semaphore_post s).1.type = .SEMAPHORE_COUNTING := by
        rw [post_type, ht]
      have hb : 0 ≤ (semaphore_post s).1.value ∧
          (semaphore_post s).1.value < 4294967296 := by
        rw [post_counting_value s ht]
        omega
      rw [apply_posts, ih _ ht2 hb.1 hb.2, post_counting_value s ht]
      push_cast
      omega

theorem post_binary_bounds (s : semaphore_state) (ht : s.type = .SEMAPHORE_BINARY)
    (h0 : 0 ≤ s.value) (h1 : s.value ≤ 1) :
    0 ≤ (semaphore_post s).1.value ∧ (semaphore_post s).1.value ≤ 1 := by
  rw [post_fst]
  split
  next h => exact ⟨h0, h1⟩
  next h =>
    have hv : s.value ≠ 1 := fun hv => h ⟨ht, hv⟩
    have hv0 : s.value = 0 := by omega
    show 0 ≤ (s.value + 1) % 4294967296 ∧ (s.value + 1) % 4294967296 ≤ 1
    rw [hv0]
    decide

theorem apply_posts_binary_bounds (p : Nat) (s : semaphore_state)
    (ht : s.type = .SEMAPHORE_BINARY) (h0 : 0 ≤ s.value) (h1 : s.value ≤ 1) :
    0 ≤ (apply_posts s p).value ∧ (apply_posts s p).value ≤ 1 := by
  induction p generalizing s with
  | zero => exact ⟨h0, h1⟩
  | succ p ih =>
      rw [apply_posts]
      have hb := post_binary_bounds s ht h0 h1
      exact ih _ (by rw [post_type, ht]) hb.1 hb.2

theorem remove_own_entry_value (s : semaphore_state) :
    (remove_own_entry s).value = s.value := rfl

theorem pend_binary_bounds (s : semaphore_state) (delay : Int) (tid posts : Nat)
    (ht : s.type = .SEMAPHORE_BINARY) (h0 : 0 ≤ s.value) (h1 : s.value ≤ 1) :
    ∀ s1 b, semaphore_pend s delay tid posts = some (s1, b) →
      0 ≤ s1.value ∧ s1.value ≤ 1 := by
  intro s1 b hp
  unfold semaphore_pend at hp
  by_cases hv : 0 < s.value
  · simp only [if_pos hv] at hp
    injection hp with hp
    injection hp with hp1 hp2
    subst hp1
    constructor <;> simp <;> omega
  · simp only [if_neg hv] at hp
    set sq : semaphore_state := { s with waiting_tasks := s.waiting_tasks ++ [⟨tid, delay⟩] } with hsq
    have hqt : sq.type = .SEMAPHORE_BINARY := ht
    have hqb := apply_posts_binary_bounds posts sq hqt h0 h1
    by_cases hd : delay = SYS_TIMEOUT_INF
    · simp only [if_pos hd] at hp
      by_cases hv2 : 0 < (apply_posts sq posts).value
      · simp only [if_pos hv2] at hp
        injection hp with hp
        injection hp with hp1 hp2
        subst hp1
        rw [remove_own_entry_value]
        constructor <;> simp <;> omega
      · simp only [if_neg hv2] at hp
        exact absurd hp (by simp)
    · simp only [if_neg hd] at hp
      by_cases hv2 : 0 < (apply_posts sq posts).value
      · simp only [if_pos hv2] at hp
        injection hp with hp
        injection hp with hp1 hp2
        subst hp1
        rw [remove_own_entry_value]
        constructor <;> simp <;> omega
      · simp only [if_neg hv2] at hp
        injection hp with hp
        injection hp with hp1 hp2
        subst hp1
        rw [remove_own_entry_value]
        omega

theorem pend_type (s : semaphore_state) (delay : Int) (tid posts : Nat) :
    ∀ s1 b, semaphore_pend s delay tid posts = some (s1, b) → s1.type = s.type := by
  intro s1 b hp
  unfold semaphore_pend at hp
  by_cases hv : 0 < s.value
  · simp only [if_pos hv] at hp
    injection hp with hp
    injection hp with hp1 hp2
    subst hp1; rfl
  · simp only [if_neg hv] at hp
    set sq : semaphore_state := { s with waiting_tasks := s.waiting_tasks ++ [⟨tid, delay⟩] } with hsq
    have hqt : (apply_posts sq posts).type = s.type := apply_posts_type posts sq
    by_cases hd : delay = SYS_TIMEOUT_INF
    · simp only [if_pos hd] at hp
      by_cases hv2 : 0 < (apply_posts sq posts).value
      · simp only [if_pos hv2] at hp
        injection hp with hp
        injection hp with hp1 hp2
        subst hp1
        exact hqt
      · simp only [if_neg hv2] at hp
        exact absurd hp (by simp)
    · simp only [if_neg hd] at hp
      by_cases hv2 : 0 < (apply_posts sq posts).value
      · simp only [if_pos hv2] at hp
        injection hp with hp
        injection hp with hp1 hp2
        subst hp1
        exact hqt
      · simp only [if_neg hv2] at hp
        injection hp with hp
        injection hp with hp1 hp2
        subst hp1
        exact hqt

theorem sem_step_pend_eq (s : semaphore_state) (d : Int) (p : Nat) :
    sem_step s (.op_pend d p) =
      match semaphore_pend s d 0 p with
      | some r => r.1
      | none => s := by
  cases hp : semaphore_pend s d 0 p with
  | none => simp only [sem_step, hp]
  | some r => cases r; simp only [sem_step, hp]

theorem sem_step_type (s : semaphore_state) (op : sem_op) :
    (sem_step s op).type = s.type := by
  cases op with
  | op_post => exact post_type s
  | op_pend d p =>
      rw [sem_step_pend_eq]
      cases hp : semaphore_pend s d 0 p with
      | none => rfl
      | some r => exact pend_type s d 0 p r.1 r.2 hp

theorem sem_step_binary_bounds (s : semaphore_state) (op : sem_op)
    (ht : s.type = .SEMAPHORE_BINARY) (h0 : 0 ≤ s.value) (h1 : s.value ≤ 1) :
    0 ≤ (sem_step s op).value ∧ (sem_step s op).value ≤ 1 := by
  cases op with
  | op_post => exact post_binary_bounds s ht h0 h1
  | op_pend d p =>
      rw [sem_step_pend_eq]
      cases hp : semaphore_pend s d 0 p with
      | none => exact ⟨h0, h1⟩
      | some r => exact pend_binary_bounds s d 0 p ht h0 h1 r.1 r.2 hp

theorem sem_run_binary_invariant (ops : List sem_op) :
    ∀ s : semaphore_state, s.type = .SEMAPHORE_BINARY → 0 ≤ s.value → s.value ≤ 1 →
      (sem_run s ops).type = .SEMAPHORE_BINARY ∧
        0 ≤ (sem_run s ops).value ∧ (sem_run s ops).value ≤ 1 := by
  induction ops with
  | nil => exact fun s ht h0 h1 => ⟨ht, h0, h1⟩
  | cons op rest ih =>
      intro s ht h0 h1
      have hb := sem_step_binary_bounds s op ht h0 h1
      exact ih (sem_step s op) (by rw [sem_step_type, ht]) hb.1 hb.2

/-- C5: for a binary semaphore, after any serial sequence of pend/post
operations the value stays in the range 0..1; a post issued while the value is
1 leaves the whole semaphore (value and waiting list) unchanged; and a pend
never drives the value below 0. -/
theorem binary_semaphore_cap (ops : List sem_op) (s : semaphore_state)
    (hs : s = sem_run semaphore_create_binary ops) :
    (0 ≤ s.value ∧ s.value ≤ 1) ∧
    (s.value = 1 → (semaphore_post s).1 = s) ∧
    (∀ (delay : Int) (tid posts : Nat) (s1 : semaphore_state) (b : Bool),
        semaphore_pend s delay tid posts = some (s1, b) → 0 ≤ s1.value) := by
  subst hs
  have hinv := sem_run_binary_invariant ops semaphore_create_binary rfl (by decide) (by decide)
  refine ⟨⟨hinv.2.1, hinv.2.2⟩, ?_, ?_⟩
  · intro h1
    rw [post_fst, if_pos ⟨hinv.1, h1⟩]
  · intro delay tid posts s1 b hp
    exact (pend_binary_bounds _ delay tid posts hinv.1 hinv.2.1 hinv.2.2 s1 b hp).1

theorem pend_counting_balance (s : semaphore_state) (d : Int) (tid p : Nat)
    (ht : s.type = .SEMAPHORE_COUNTING) (h0 : 0 ≤ s.value)
    (hM : s.value < 4294967296) :
    (∀ s1 b, semaphore_pend s d tid p = some (s1, b) →
        (s1.value + (if b then (1 : Int) else 0)) % 4294967296
            = (s.value + (if 0 < s.value then 0 else (p : Int))) % 4294967296 ∧
          0 ≤ s1.value ∧ s1.value < 4294967296) ∧
    (semaphore_pend s d tid p = none →
        s.value = 0 ∧ ((p : Int)) % 4294967296 = 0) := by
  constructor
  · intro s1 b hp
    unfold semaphore_pend at hp
    by_cases hv : 0 < s.value
    · rw [if_pos hv] at hp
      injection hp with hp
      injection hp with hp1 hp2
      subst hp1; subst hp2
      rw [if_pos hv]
      refine ⟨?_, ?_, ?_⟩ <;> (try simp) <;> omega
    · rw [if_neg hv] at hp
      rw [if_neg hv]
      set sq : semaphore_state := { s with waiting_tasks := s.waiting_tasks ++ [⟨tid, d⟩] }
        with hsq
      have hqt : sq.type = .SEMAPHORE_COUNTING := ht
      have happ : (apply_posts sq p).value = (s.value + p) % 4294967296 := by
        rw [apply_posts_value_counting p sq hqt h0 hM]
      by_cases hd : d = SYS_TIMEOUT_INF
      · rw [if_pos hd] at hp
        by_cases hv2 : 0 < (apply_posts sq p).value
        · rw [if_pos hv2] at hp
          injection hp with hp
          injection hp with hp1 hp2
          subst hp1; subst hp2
          rw [remove_own_entry_value]
          refine ⟨?_, ?_, ?_⟩ <;> (try simp) <;> omega
        · rw [if_neg hv2] at hp
          exact absurd hp (by simp)
      · rw [if_neg hd] at hp
        by_cases hv2 : 0 < (apply_posts sq p).value
        · rw [if_pos hv2] at hp
          injection hp with hp
          injection hp with hp1 hp2
          subst hp1; subst hp2
          rw [remove_own_entry_value]
          refine ⟨?_, ?_, ?_⟩ <;> (try simp) <;> omega
        · rw [if_neg hv2] at hp
          injection hp with hp
          injection hp with hp1 hp2
          subst hp1; subst hp2
          rw [remove_own_entry_value]
          refine ⟨?_, ?_, ?_⟩ <;> (try simp) <;> omega
  · intro hp
    unfold semaphore_pend at hp
    by_cases hv : 0 < s.value
    · rw [if_pos hv] at hp
      exact absurd hp (by simp)
    · rw [if_neg hv] at hp
      set sq : semaphore_state := { s with waiting_tasks := s.waiting_tasks ++ [⟨tid, d⟩] }
        with hsq
      have hqt : sq.type = .SEMAPHORE_COUNTING := ht
      have happ : (apply_posts sq p).value = (s.value + p) % 4294967296 := by
        rw [apply_posts_value_counting p sq hqt h0 hM]
      by_cases hd : d = SYS_TIMEOUT_INF
      · rw [if_pos hd] at hp
        by_cases hv2 : 0 < (apply_posts sq p).value
        · rw [if_pos hv2] at hp
          exact absurd hp (by simp)
        · rw [if_neg hv2] at hp
          omega
      · rw [if_neg hd] at hp
        by_cases hv2 : 0 < (apply_posts sq p).value
        · rw [if_pos hv2] at hp
          exact absurd hp (by simp)
        · rw [if_neg hv2] at hp
          exact absurd hp (by simp)

theorem sem_step_counting (s : semaphore_state) (op : sem_op)
    (ht : s.type = .SEMAPHORE_COUNTING) (h0 : 0 ≤ s.value)
    (hM : s.value < 4294967296) :
    ((sem_step s op).value + (success_of s op : Int)) % 4294967296
        = (s.value + (posts_applied s op : Int)) % 4294967296 ∧
      0 ≤ (sem_step s op).value ∧ (sem_step s op).value < 4294967296 := by
  cases op with
  | op_post =>
      show ((semaphore_post s).1.value + ((0 : Nat) : Int)) % 4294967296
          = (s.value + ((1 : Nat) : Int)) % 4294967296 ∧
        0 ≤ (semaphore_post s).1.value ∧ (semaphore_post s).1.value < 4294967296
      rw [post_counting_value s ht]
      refine ⟨?_, ?_, ?_⟩
      · push_cast
        omega
      · omega
      · omega
  | op_pend d p =>
      rw [sem_step_pend_eq]
      have hb := pend_counting_balance s d 0 p ht h0 hM
      cases hp : semaphore_pend s d 0 p with
      | none =>
          have h2 := hb.2 hp
          have hdec : pend_decrements s d p = false := by
            unfold pend_decrements
            rw [hp]
          simp only [success_of, posts_applied, hdec, if_false, Bool.false_eq_true]
          rw [if_neg (by omega : ¬ 0 < s.value)]
          refine ⟨?_, h0, hM⟩
          push_cast
          omega
      | some r =>
          have h1 := hb.1 r.1 r.2 hp
          have hdec : pend_decrements s d p = r.2 := by
            unfold pend_decrements
            rw [hp]
          simp only [success_of, posts_applied, hdec]
          refine ⟨?_, h1.2.1, h1.2.2⟩
          by_cases hv : 0 < s.value
          · rw [if_pos hv] at h1 ⊢
            cases hr2 : r.2 with
            | true => rw [hr2] at h1; simp at h1 ⊢; omega
            | false => rw [hr2] at h1; simp at h1 ⊢; omega
          · rw [if_neg hv] at h1 ⊢
            cases hr2 : r.2 with
            | true => rw [hr2] at h1; simp at h1 ⊢; omega
            | false => rw [hr2] at h1; simp at h1 ⊢; omega

theorem sem_run_counting_balance (ops : List sem_op) :
    ∀ s : semaphore_state, s.type = .SEMAPHORE_COUNTING → 0 ≤ s.value →
      s.value < 4294967296 →
      ((sem_run s ops).value + (total_successes s ops : Int)) % 4294967296
          = (s.value + (total_posts s ops : Int)) % 4294967296 ∧
        0 ≤ (sem_run s ops).value ∧ (sem_run s ops).value < 4294967296 := by
  induction ops with
  | nil =>
      intro s ht h0 hM
      exact ⟨by simp [sem_run, total_successes, total_posts], h0, hM⟩
  | cons op rest ih =>
      intro s ht h0 hM
      have hstep := sem_step_counting s op ht h0 hM
      have htype : (sem_step s op).type = .SEMAPHORE_COUNTING := by
        rw [sem_step_type, ht]
      have hrest := ih (sem_step s op) htype hstep.2.1 hstep.2.2
      refine ⟨?_, hrest.2.1, hrest.2.2⟩
      show ((sem_run (sem_step s op) rest).value
          + ((success_of s op + total_successes (sem_step s op) rest : Nat) : Int)) % 4294967296
        = (s.value + ((posts_applied s op + total_posts (sem_step s op) rest : Nat) : Int)) % 4294967296
      push_cast
      push_cast at hrest hstep
      omega

/-- Posts alone: n consecutive posts advance a counting semaphore's value to
(value + n) mod 2^32, apply n posts, and contain no successful pend. -/
theorem sem_run_posts_only (n : Nat) :
    ∀ s : semaphore_state, s.type = .SEMAPHORE_COUNTING → 0 ≤ s.value →
      s.value < 4294967296 →
      (sem_run s (List.replicate n .op_post)).value
          = (s.value + n) % 4294967296 ∧
      total_posts s (List.replicate n .op_post) = n ∧
      total_successes s (List.replicate n .op_post) = 0 := by
  induction n with
  | zero =>
      intro s ht h0 hM
      refine ⟨?_, rfl, rfl⟩
      show s.value = (s.value + ((0 : Nat) : Int)) % 4294967296
      push_cast
      omega
  | succ n ih =>
      intro s ht h0 hM
      rw [List.replicate_succ]
      have hpv : (sem_step s .op_post).value = (s.value + 1) % 4294967296 :=
        post_counting_value s ht
      have ht2 : (sem_step s .op_post).type = .SEMAPHORE_COUNTING := by
        rw [sem_step_type, ht]
      have hb : 0 ≤ (sem_step s .op_post).value ∧
          (sem_step s .op_post).value < 4294967296 := by
        rw [hpv]
        omega
      have hr := ih (sem_step s .op_post) ht2 hb.1 hb.2
      refine ⟨?_, ?_, ?_⟩
      · show (sem_run (sem_step s .op_post) (List.replicate n .op_post)).value
            = (s.value + ((n + 1 : Nat) : Int)) % 4294967296
        rw [hr.1, hpv]
        push_cast
        omega
      · show 1 + total_posts (sem_step s .op_post) (List.replicate n .op_post) = n + 1
        rw [hr.2.1]
        omega
      · show 0 + total_successes (sem_step s .op_post) (List.replicate n .op_post) = 0
        rw [hr.2.2]

/-- C6 amended: the semaphore value is the C 32-bit unsigned int, so for a
counting semaphore created with initial value k, after any serial sequence of
operations containing s value-decrementing (successful) pends and t applied
posts the value equals (k + t - s) mod 2^32 — the claim's plain k + t - s
until the first wrap, which 2^32 posts reach (see
counting_semaphore_wrap_counterexample) — and the value is never negative. -/
theorem counting_semaphore_balance (k : Nat) (ops : List sem_op)
    (hk : (k : Int) < 4294967296) :
    (sem_run (semaphore_create_counting k) ops).value
        = ((k : Int) + (total_posts (semaphore_create_counting k) ops : Int)
            - (total_successes (semaphore_create_counting k) ops : Int)) % 4294967296 ∧
      0 ≤ (sem_run (semaphore_create_counting k) ops).value := by
  have h := sem_run_counting_balance ops (semaphore_create_counting k) rfl
    (by show (0 : Int) ≤ (k : Int); exact_mod_cast Nat.zero_le k) hk
  have hv : (semaphore_create_counting k).value = (k : Int) := rfl
  rw [hv] at h
  refine ⟨?_, h.2.1⟩
  omega

/-- Closed instantiation of counting_semaphore_balance: one post and one
pend on a semaphore created at 2. -/
theorem counting_semaphore_balance_witness :
    ((2 : Nat) : Int) < 4294967296 ∧
    (sem_run (semaphore_create_counting 2) [.op_post, .op_pend 5 0]).value
        = (((2 : Nat) : Int)
              + (total_posts (semaphore_create_counting 2)
                  [.op_post, .op_pend 5 0] : Int)
              - (total_successes (semaphore_create_counting 2)
                  [.op_post, .op_pend 5 0] : Int)) % 4294967296 :=
  ⟨by decide,
    (counting_semaphore_balance 2 [.op_post, .op_pend 5 0] (by decide)).1⟩

/-- C6 counterexample: the C value is a 32-bit unsigned int and
semaphore_post increments it unguarded, so 2^32 posts starting from value 0
wrap the value back to 0, while the claim predicts value = k + t - s =
0 + 2^32 - 0 ≠ 0: the plain balance law fails on unbounded serial
sequences. -/
theorem counting_semaphore_wrap_counterexample :
    (sem_run (semaphore_create_counting 0)
        (List.replicate 4294967296 .op_post)).value = 0 ∧
    total_posts (semaphore_create_counting 0)
        (List.replicate 4294967296 .op_post) = 4294967296 ∧
    total_successes (semaphore_create_counting 0)
        (List.replicate 4294967296 .op_post) = 0 ∧
    ((0 : Int) + ((4294967296 : Nat) : Int) - ((0 : Nat) : Int)) ≠ 0 := by
  have h := sem_run_posts_only 4294967296 (semaphore_create_counting 0) rfl
    (by decide) (by decide)
  refine ⟨?_, h.2.1, h.2.2, by decide⟩
  rw [h.1]
  show ((0 : Int) + ((4294967296 : Nat) : Int)) % 4294967296 = 0
  decide

/-- C7: semaphore_destroy fails with ERR_BADPARAM and leaves the semaphore
completely unchanged (still usable) whenever the waiting list is non-empty,
and frees the semaphore returning SYS_OK when the waiting list is empty. -/
theorem semaphore_destroy_spec (s : semaphore_state) :
    (s.waiting_tasks ≠ [] → semaphore_destroy s = (.ERR_BADPARAM, some s)) ∧
    (s.waiting_tasks = [] → semaphore_destroy s = (.SYS_OK, none)) := by
  constructor <;> intro h <;> simp [semaphore_destroy, h]

/-- Closed instantiation of semaphore_destroy_spec: destroying a semaphore
with one waiter fails and preserves it; destroying a fresh binary semaphore
succeeds. -/
theorem semaphore_destroy_spec_witness :
    semaphore_destroy
        { value := 0, type := .SEMAPHORE_BINARY,
          waiting_tasks := [⟨1, SYS_TIMEOUT_INF⟩] }
      = (.ERR_BADPARAM, some
          { value := 0, type := .SEMAPHORE_BINARY,
            waiting_tasks := [⟨1, SYS_TIMEOUT_INF⟩] }) ∧
    semaphore_destroy semaphore_create_binary = (.SYS_OK, none) := by
  constructor
  · exact (semaphore_destroy_spec _).1 (by decide)
  · exact (semaphore_destroy_spec _).2 rfl

/-- C1 counterexample: a pend that succeeds (decrements the value) and a pend
that times out (leaves the value alone) return the same thing to the C
caller, because semaphore_pend is declared void; the public interface does
not distinguish success from timeout. -/
theorem semaphore_pend_void_counterexample :
    semaphore_pend (semaphore_create_counting 1) 5 0 0
        = some (semaphore_create_counting 0, true) ∧
    semaphore_pend (semaphore_create_counting 0) 5 0 0
        = some (semaphore_create_counting 0, false) ∧
    semaphore_pend_ret (semaphore_create_counting 1) 5 0 0
        = semaphore_pend_ret (semaphore_create_counting 0) 5 0 0 := by
  refine ⟨?_, ?_, ?_⟩ <;> decide

/-- C1 amended: with the semaphore at value 0, a pend with a finite timeout
and no intervening post completes after the timeout with the semaphore state
unchanged and no decrement; a pend with SYS_TIMEOUT_INF and no post never
completes, and with posts delivered it completes after decrementing; a pend
finding a positive value decrements it and completes at once.  The internal
success/timeout outcome exists but is not returned: the C function is void. -/
theorem semaphore_pend_outcomes (s : semaphore_state) (tid : Nat) (T : Int) (p : Nat)
    (hv : s.value = 0) :
    (T ≠ SYS_TIMEOUT_INF → semaphore_pend s T tid 0 = some (s, false)) ∧
    semaphore_pend s SYS_TIMEOUT_INF tid 0 = none ∧
    (s.type = .SEMAPHORE_COUNTING → 0 < p → (p : Int) < 4294967296 →
        semaphore_pend s SYS_TIMEOUT_INF tid p
          = some ({ s with value := (p : Int) - 1 }, true)) ∧
    (∀ s2 : semaphore_state, 0 < s2.value →
        semaphore_pend s2 T tid p = some ({ s2 with value := s2.value - 1 }, true)) := by
  have hnv : ¬ 0 < s.value := by omega
  refine ⟨?_, ?_, ?_, ?_⟩
  · intro hT
    unfold semaphore_pend
    rw [if_neg hnv, if_neg hT]
    have h0 : apply_posts { s with waiting_tasks := s.waiting_tasks ++ [⟨tid, T⟩] } 0
        = { s with waiting_tasks := s.waiting_tasks ++ [⟨tid, T⟩] } := rfl
    rw [h0, if_neg (by show ¬ (0:Int) < s.value; omega)]
    unfold remove_own_entry
    simp
  · unfold semaphore_pend
    rw [if_neg hnv, if_pos rfl]
    have h0 : apply_posts { s with waiting_tasks := s.waiting_tasks ++ [⟨tid, SYS_TIMEOUT_INF⟩] } 0
        = { s with waiting_tasks := s.waiting_tasks ++ [⟨tid, SYS_TIMEOUT_INF⟩] } := rfl
    rw [h0, if_neg (by show ¬ (0:Int) < s.value; omega)]
  · intro ht hp hp32
    unfold semaphore_pend
    rw [if_neg hnv, if_pos rfl]
    set sq : semaphore_state :=
      { s with waiting_tasks := s.waiting_tasks ++ [⟨tid, SYS_TIMEOUT_INF⟩] } with hsq
    have hqt : sq.type = .SEMAPHORE_COUNTING := ht
    have happ : (apply_posts sq p).value = (p : Int) := by
      rw [apply_posts_value_counting p sq hqt (by show (0 : Int) ≤ s.value; omega)
        (by show s.value < 4294967296; omega)]
      show (s.value + (p : Int)) % 4294967296 = (p : Int)
      omega
    rw [if_pos (by rw [happ]; exact_mod_cast hp)]
    have hw : (apply_posts sq p).waiting_tasks = sq.waiting_tasks := apply_posts_waiting p sq
    have htp : (apply_posts sq p).type = s.type := apply_posts_type p sq
    have hrec : remove_own_entry
        { apply_posts sq p with value := (apply_posts sq p).value - 1 }
          = { s with value := (p : Int) - 1 } := by
      apply sem_state_ext
      · rw [remove_own_entry_value]
        show (apply_posts sq p).value - 1 = (p : Int) - 1
        rw [happ]
      · show (apply_posts sq p).type = s.type
        exact htp
      · show (apply_posts sq p).waiting_tasks.dropLast = s.waiting_tasks
        rw [hw]
        exact List.dropLast_concat
    rw [hrec]
  · intro s2 hv2
    unfold semaphore_pend
    rw [if_pos hv2]

/-- Closed instantiation of semaphore_pend_outcomes at concrete semaphores. -/
theorem semaphore_pend_outcomes_witness :
    semaphore_pend (semaphore_create_counting 0) 7 0 0
        = some (semaphore_create_counting 0, false) ∧
    semaphore_pend (semaphore_create_counting 0) SYS_TIMEOUT_INF 0 0 = none ∧
    semaphore_pend (semaphore_create_counting 0) SYS_TIMEOUT_INF 0 2
        = some ({ semaphore_create_counting 0 with value := ((2 : Nat) : Int) - 1 }, true) ∧
    semaphore_pend (semaphore_create_counting 3) 7 0 2
        = some ({ semaphore_create_counting 3 with
                    value := (semaphore_create_counting 3).value - 1 }, true) := by
  have h := semaphore_pend_outcomes (semaphore_create_counting 0) 0 7 2 rfl
  exact ⟨h.1 (by decide), h.2.1, h.2.2.1 rfl (by decide) (by decide),
    h.2.2.2 (semaphore_create_counting 3) (by decide)⟩

/-- Closed instantiation of binary_semaphore_cap at a concrete operation
sequence. -/
theorem binary_semaphore_cap_witness :
    0 ≤ (sem_run semaphore_create_binary [.op_post, .op_post, .op_pend 5 0]).value ∧
      (sem_run semaphore_create_binary [.op_post, .op_post, .op_pend 5 0]).value ≤ 1 :=
  (binary_semaphore_cap [.op_post, .op_post, .op_pend 5 0]
    (sem_run semaphore_create_binary [.op_post, .op_post, .op_pend 5 0]) rfl).1

/-- task_state_t from task.c. -/
inductive task_state
  | TASK_EXITED
  | TASK_DELAYED
  | TASK_BLOCKED
  | TASK_READY
  | TASK_ACTIVE
  deriving DecidableEq, Repr

/-- BLOCK_NONE from block_reason_t in task.h, as stored in the C int
blockstate field; when a task is delayed the same field holds the
remaining-tick count. -/
def BLOCK_NONE : Int := 0

/-- BLOCK_SEMAPHORE from block_reason_t in task.h. -/
def BLOCK_SEMAPHORE : Int := 1

/-- RTOS_PRIORITY_COUNT from task.h: seven priority levels, array indices
0..6. -/
def RTOS_PRIORITY_COUNT : Nat := 7

/-- DEFAULT_PRIORITY from task.h. -/
def DEFAULT_PRIORITY : Nat := 5

/-- task_status_t (the TCB) from task.c, restricted to the scheduling fields
the claims quantify over; the stack bookkeeping, entry point, argument and
name take no part in list membership or state transitions. -/
structure task_status where
  state : task_state
  blockstate : Int
  priority : Nat
  deriving DecidableEq, Repr

instance : Inhabited task_status := ⟨⟨.TASK_EXITED, 0, 0⟩⟩

/-- The static scheduler state of task.c: active_task, the per-priority ready
queues (the C array list_t ready_tasks[RTOS_PRIORITY_COUNT]), the delayed,
blocked and exited lists, and the TCB store.  Task handles are indices into
`tasks`; each intrusive task list is modelled by the sequence of handles it
holds, head first (list_append appends at the tail, list_get_head reads the
first element).  `pendsv` records whether set_pendsv has fired. -/
structure sched_state where
  active_task : Option Nat
  ready_tasks : List (List Nat)
  delayed_tasks : List Nat
  blocked_tasks : List Nat
  exited_tasks : List Nat
  tasks : List task_status
  pendsv : Bool
  deriving DecidableEq, Repr

/-- Dereference a task handle (TCB lookup). -/
def tcb (s : sched_state) (id : Nat) : task_status := s.tasks.getD id default

/-- task_yield from task.c: no-op without an active task; otherwise marks the
active task READY and sets the PendSV bit. -/
def task_yield (s : sched_state) : sched_state :=
  match s.active_task with
  | none => s
  | some aid =>
      { s with
        tasks := s.tasks.set aid { tcb s aid with state := .TASK_READY },
        pendsv := true }

/-- unblock_task from task.c.  SYS_USE_PREEMPTION defaults to
PREEMPTION_ENABLED (config.h), so the preemption check compiles in; the C
dereferences active_task there unconditionally, and the model performs the
comparison only when an active task exists. -/
def unblock_task (s : sched_state) (task : Option Nat) (reason : Int) : sched_state :=
  match task with
  | none => s
  | some tid =>
      let t := tcb s tid
      if t.state ≠ .TASK_BLOCKED ∨ t.blockstate ≠ reason then s
      else
        let s1 : sched_state :=
          { s with
            tasks := s.tasks.set tid
              { t with state := .TASK_READY, blockstate := BLOCK_NONE },
            blocked_tasks := s.blocked_tasks.erase tid,
            ready_tasks := s.ready_tasks.set t.priority
              ((s.ready_tasks.getD t.priority []) ++ [tid]) }
        match s1.active_task with
        | some aid => if (tcb s1 aid).priority < t.priority then task_yield s1 else s1
        | none => s1

/-- decrement_task_delay from task.c. -/
def decrement_task_delay (t : task_status) : task_status :=
  { t with blockstate := t.blockstate - 1 }

/-- The list_iterate(delayed_tasks, decrement_task_delay) pass of the tick
handler: mutates every task on the delayed list in head-to-tail order. -/
def decrement_delays : List task_status → List Nat → List task_status
  | tasks, [] => tasks
  | tasks, id :: rest =>
      decrement_delays (tasks.set id (decrement_task_delay (tasks.getD id default))) rest

/-- Result of list_iterate(delayed_tasks, find_first_zero_delay): the first
task with blockstate 0, or the tail of the list when no such task exists, or
NULL (none) on the empty list; this is the last-visited-node contract of
list_iterate established in the heap model below. -/
def find_zero_delay (tasks : List task_status) (delayed : List Nat) : Option Nat :=
  match delayed.find? (fun id => (tasks.getD id default).blockstate == 0) with
  | some id => some id
  | none => delayed.getLast?

/-- The release loop of SysTickHandler: until the iterate result is the tail
with a non-zero delay (or the delayed list is empty) — the C break condition —
remove the found task from the delayed list and append it to
ready_tasks[priority].  Fuel bounds the iteration count; the handler passes
the delayed-list length, which the loop never exceeds because every
iteration removes one list element. -/
def systick_release :
    List task_status → List Nat → List (List Nat) → Nat →
      List task_status × List Nat × List (List Nat)
  | tasks, delayed, ready, 0 => (tasks, delayed, ready)
  | tasks, delayed, ready, fuel + 1 =>
      match find_zero_delay tasks delayed with
      | none => (tasks, delayed, ready)
      | some id =>
          if delayed.getLast? = some id ∧ (tasks.getD id default).blockstate ≠ 0 then
            (tasks, delayed, ready)
          else
            let pr := (tasks.getD id default).priority
            systick_release tasks (delayed.erase id)
              (ready.set pr ((ready.getD pr []) ++ [id])) fuel

/-- The preemption scan of SysTickHandler: the C while loop walks i down from
RTOS_PRIORITY_COUNT - 1 while ready_tasks[i] is empty and i exceeds the
active task's priority. -/
def preempt_scan (ready : List (List Nat)) (pr : Nat) : Nat → Nat
  | 0 => 0
  | i + 1 =>
      if ready.getD (i + 1) [] = [] ∧ pr < i + 1 then preempt_scan ready pr i
      else i + 1

/-- SysTickHandler from task.c: decrement every delayed task's remaining-tick
field, move every task whose field reached zero to the tail of its ready
queue, then (SYS_USE_PREEMPTION defaults to enabled) yield when a ready queue
of higher priority than the active task is non-empty.  The C dereferences
active_task in the preemption check; the model runs it only when an active
task exists (the tick fires only after scheduling has started). -/
def SysTickHandler (s : sched_state) : sched_state :=
  let t1 := decrement_delays s.tasks s.delayed_tasks
  let rel := systick_release t1 s.delayed_tasks s.ready_tasks s.delayed_tasks.length
  let s1 : sched_state :=
    { s with tasks := rel.1, delayed_tasks := rel.2.1, ready_tasks := rel.2.2 }
  match s1.active_task with
  | none => s1
  | some aid =>
      let i := preempt_scan s1.ready_tasks (tcb s1 aid).priority (RTOS_PRIORITY_COUNT - 1)
      if (tcb s1 aid).priority < i then task_yield s1 else s1

/-- The priority scan of select_active_task: the C for loop runs i from
RTOS_PRIORITY_COUNT - 1 down to 1 and stops at the first non-empty ready
queue, ending at 0 when queues 1 and above are all empty. -/
def select_scan (ready : List (List Nat)) : Nat → Nat
  | 0 => 0
  | i + 1 => if ready.getD (i + 1) [] ≠ [] then i + 1 else select_scan ready i

/-- The dispatch step of select_active_task: with `ready1` the ready queues
after the new active task has been removed, store the previously active task
(when non-null) in the blocked, delayed or ready list according to its
state. -/
def dispatch_active (s : sched_state) (ready1 : List (List Nat)) : sched_state :=
  match s.active_task with
  | none => { s with ready_tasks := ready1 }
  | some aid =>
      if (tcb s aid).state = .TASK_BLOCKED then
        { s with ready_tasks := ready1,
                 blocked_tasks := s.blocked_tasks ++ [aid] }
      else if (tcb s aid).state = .TASK_DELAYED then
        { s with ready_tasks := ready1,
                 delayed_tasks := s.delayed_tasks ++ [aid] }
      else
        let pq := (tcb s aid).priority
        { s with ready_tasks := ready1.set pq ((ready1.getD pq []) ++ [aid]) }

/-- select_active_task from task.c: pick the head of the highest-priority
non-empty ready queue, remove it from that queue, dispatch the previously
active task (when non-null) to the blocked, delayed or ready list according
to its state, and mark the picked task ACTIVE.  When every ready queue is
empty the function returns with the state untouched. -/
def select_active_task (s : sched_state) : sched_state :=
  match (s.ready_tasks.getD (select_scan s.ready_tasks (RTOS_PRIORITY_COUNT - 1)) []).head? with
  | none => s
  | some new_active =>
      let s1 := dispatch_active s
        (s.ready_tasks.set (select_scan s.ready_tasks (RTOS_PRIORITY_COUNT - 1))
          (s.ready_tasks.getD (select_scan s.ready_tasks (RTOS_PRIORITY_COUNT - 1)) []).tail)
      { s1 with
        active_task := some new_active,
        tasks := s1.tasks.set new_active
          { tcb s1 new_active with state := .TASK_ACTIVE } }

/-- task_config_t from task.h. -/
structure task_config where
  task_stack : Option Nat
  task_stacksize : Int
  task_priority : Nat
  task_name : Option String
  deriving DecidableEq, Repr

/-- The index into the C array list_t ready_tasks[RTOS_PRIORITY_COUNT] that
task_create writes through once its parameter checks pass; an index that is
not below RTOS_PRIORITY_COUNT is an out-of-bounds array write in the C. -/
def task_create_enqueue_index (cfg : Option task_config) : Nat :=
  match cfg with
  | none => DEFAULT_PRIORITY
  | some c => c.task_priority

/-- task_create from task.c, with every allocation succeeding: entry = none
models a NULL entry point, and the fresh TCB gets the next free handle.  The
C rejects a configured priority only when task_priority > RTOS_PRIORITY_COUNT
(a strict comparison); otherwise it marks the new task READY with BLOCK_NONE
and appends it to ready_tasks[task_create_enqueue_index cfg]. -/
def task_create (s : sched_state) (entry : Option Nat) (cfg : Option task_config) :
    sched_state × Option Nat :=
  if entry = none then (s, none)
  else
    match cfg with
    | some c =>
        if RTOS_PRIORITY_COUNT < c.task_priority then (s, none)
        else
          let newid := s.tasks.length
          ({ s with
             tasks := s.tasks ++ [{ state := .TASK_READY, blockstate := BLOCK_NONE,
                                    priority := c.task_priority }],
             ready_tasks := s.ready_tasks.set c.task_priority
               ((s.ready_tasks.getD c.task_priority []) ++ [newid]) }, some newid)
    | none =>
        let newid := s.tasks.length
        ({ s with
           tasks := s.tasks ++ [{ state := .TASK_READY, blockstate := BLOCK_NONE,
                                  priority := DEFAULT_PRIORITY }],
           ready_tasks := s.ready_tasks.set DEFAULT_PRIORITY
             ((s.ready_tasks.getD DEFAULT_PRIORITY []) ++ [newid]) }, some newid)

/-- An empty scheduler state (all lists empty, no active task), used by the
concrete evaluations. -/
def sched_empty : sched_state :=
  { active_task := none,
    ready_tasks := [[], [], [], [], [], [], []],
    delayed_tasks := [], blocked_tasks := [], exited_tasks := [],
    tasks := [], pendsv := false }

/-- C2: the claim requires task_create to return null when
cfg.task_priority = RTOS_PRIORITY_COUNT, but the C parameter check is
`cfg->task_priority > RTOS_PRIORITY_COUNT`, a strict comparison, so that
priority passes the check: task_create returns a handle and its enqueue index
equals RTOS_PRIORITY_COUNT, one element past the end of the C array
list_t ready_tasks[RTOS_PRIORITY_COUNT] (an out-of-bounds write). -/
theorem task_create_priority_bound_bug :
    (task_create sched_empty (some 1)
        (some { task_stack := some 1, task_stacksize := 2048,
                task_priority := RTOS_PRIORITY_COUNT, task_name := none })).2 ≠ none ∧
    task_create_enqueue_index
        (some { task_stack := some 1, task_stacksize := 2048,
                task_priority := RTOS_PRIORITY_COUNT, task_name := none })
      = RTOS_PRIORITY_COUNT ∧
    ¬ task_create_enqueue_index
        (some { task_stack := some 1, task_stacksize := 2048,
                task_priority := RTOS_PRIORITY_COUNT, task_name := none })
      < RTOS_PRIORITY_COUNT := by
  refine ⟨?_, rfl, by decide⟩
  decide

/-- The concrete pre-state of the tick-handler evaluation: task 0 is delayed
with one remaining tick at priority 4; task 1 is the active task at
priority 6. -/
def systick_example : sched_state :=
  { active_task := some 1,
    ready_tasks := [[], [], [], [], [], [], []],
    delayed_tasks := [0], blocked_tasks := [], exited_tasks := [],
    tasks := [{ state := .TASK_DELAYED, blockstate := 1, priority := 4 },
              { state := .TASK_ACTIVE, blockstate := 0, priority := 6 }],
    pendsv := false }

/-- C3: on the tick the handler decrements task 0's counter to zero and
appends the task to the tail of ready_tasks[4], as the claim states, but it
never writes the task's state field: the task sits in the ready queue still
marked TASK_DELAYED, not TASK_READY.  (unblock_delayed_task, the sibling
release path, does set TASK_READY and task_destroy expects every non-active
task to be BLOCKED or READY, so the missing store is a slip in the C.) -/
theorem systick_leaves_state_delayed :
    (SysTickHandler systick_example).delayed_tasks = [] ∧
    (SysTickHandler systick_example).ready_tasks.getD 4 [] = [0] ∧
    (tcb (SysTickHandler systick_example) 0).blockstate = 0 ∧
    (tcb (SysTickHandler systick_example) 0).state = .TASK_DELAYED ∧
    (tcb (SysTickHandler systick_example) 0).state ≠ .TASK_READY := by
  refine ⟨?_, ?_, ?_, ?_, ?_⟩ <;> decide

/-- The concrete pre-state of the reschedule counterexample: the active task 0
has priority 5 and was marked READY by task_yield; the only ready task, 1,
has priority 3 and sits in ready queue 3. -/
def select_example : sched_state :=
  { active_task := some 0,
    ready_tasks := [[], [], [], [1], [], [], []],
    delayed_tasks := [], blocked_tasks := [], exited_tasks := [],
    tasks := [{ state := .TASK_READY, blockstate := 0, priority := 5 },
              { state := .TASK_READY, blockstate := 0, priority := 3 }],
    pendsv := false }

/-- C4 counterexample: select_active_task picks task 1 (priority 3) from the
highest non-empty ready queue and only afterwards dispatches the previously
active task 0 (READY, priority 5) to ready queue 5 — so after the reschedule
a ready task has strictly greater priority than the ACTIVE task, refuting the
claim's closing invariant. -/
theorem select_active_task_counterexample :
    (select_active_task select_example).active_task = some 1 ∧
    (tcb (select_active_task select_example) 1).state = .TASK_ACTIVE ∧
    (select_active_task select_example).ready_tasks.getD 5 [] = [0] ∧
    (tcb (select_active_task select_example) 0).state = .TASK_READY ∧
    (tcb (select_active_task select_example) 1).priority
      < (tcb (select_active_task select_example) 0).priority := by
  refine ⟨?_, ?_, ?_, ?_, ?_⟩ <;> decide

theorem getD_set_self {α : Type} (l : List α) (n : Nat) (x d : α) (h : n < l.length) :
    (l.set n x).getD n d = x := by
  induction l generalizing n with
  | nil => simp at h
  | cons a t ih =>
      cases n with
      | zero => rfl
      | succ m =>
          show (t.set m x).getD m d = x
          exact ih m (Nat.lt_of_succ_lt_succ h)

theorem getD_set_ne {α : Type} (l : List α) (m n : Nat) (x d : α) (h : m ≠ n) :
    (l.set m x).getD n d = l.getD n d := by
  induction l generalizing m n with
  | nil => rfl
  | cons a t ih =>
      cases m with
      | zero =>
          cases n with
          | zero => exact absurd rfl h
          | succ k => rfl
      | succ m2 =>
          cases n with
          | zero => rfl
          | succ k =>
              show (t.set m2 x).getD k d = t.getD k d
              exact ih m2 k (fun hh => h (by rw [hh]))

theorem select_scan_le (ready : List (List Nat)) (n : Nat) : select_scan ready n ≤ n := by
  induction n with
  | zero => exact Nat.le_refl 0
  | succ n ih =>
      unfold select_scan
      split
      · exact Nat.le_refl _
      · exact Nat.le_trans ih (Nat.le_succ n)

theorem select_scan_empty_above (ready : List (List Nat)) (n : Nat) :
    ∀ q, select_scan ready n < q → q ≤ n → ready.getD q [] = [] := by
  induction n with
  | zero => intro q h1 h2; omega
  | succ n ih =>
      intro q h1 h2
      unfold select_scan at h1
      by_cases hne : ready.getD (n + 1) [] ≠ []
      · rw [if_pos hne] at h1; omega
      · rw [if_neg hne] at h1
        push_neg at hne
        by_cases hq : q = n + 1
        · rw [hq]; exact hne
        · exact ih q h1 (by omega)

theorem select_scan_nonempty (ready : List (List Nat)) (n : Nat) :
    ∀ p, p ≤ n → ready.getD p [] ≠ [] →
      ready.getD (select_scan ready n) [] ≠ [] := by
  induction n with
  | zero =>
      intro p hp hne
      have hp0 : p = 0 := by omega
      subst hp0
      exact hne
  | succ n ih =>
      intro p hp hne
      unfold select_scan
      by_cases h1 : ready.getD (n + 1) [] ≠ []
      · rw [if_pos h1]; exact h1
      · rw [if_neg h1]
        push_neg at h1
        by_cases hp2 : p = n + 1
        · subst hp2; exact absurd h1 hne
        · exact ih p (by omega) hne

theorem dispatch_active_none (s : sched_state) (r1 : List (List Nat))
    (h : s.active_task = none) :
    dispatch_active s r1 = { s with ready_tasks := r1 } := by
  unfold dispatch_active
  simp only [h]

theorem dispatch_active_blocked (s : sched_state) (r1 : List (List Nat)) (aid : Nat)
    (h : s.active_task = some aid) (hb : (tcb s aid).state = .TASK_BLOCKED) :
    dispatch_active s r1
      = { s with ready_tasks := r1, blocked_tasks := s.blocked_tasks ++ [aid] } := by
  unfold dispatch_active
  simp only [h, if_pos hb]

theorem dispatch_active_delayed (s : sched_state) (r1 : List (List Nat)) (aid : Nat)
    (h : s.active_task = some aid) (hb : ¬ (tcb s aid).state = .TASK_BLOCKED)
    (hd : (tcb s aid).state = .TASK_DELAYED) :
    dispatch_active s r1
      = { s with ready_tasks := r1, delayed_tasks := s.delayed_tasks ++ [aid] } := by
  unfold dispatch_active
  simp only [h, if_neg hb, if_pos hd]

theorem dispatch_active_ready (s : sched_state) (r1 : List (List Nat)) (aid : Nat)
    (h : s.active_task = some aid) (hb : ¬ (tcb s aid).state = .TASK_BLOCKED)
    (hd : ¬ (tcb s aid).state = .TASK_DELAYED) :
    dispatch_active s r1
      = { s with ready_tasks :=
            r1.set (tcb s aid).priority ((r1.getD (tcb s aid).priority []) ++ [aid]) } := by
  unfold dispatch_active
  simp only [h, if_neg hb, if_neg hd]

theorem dispatch_active_tasks (s : sched_state) (r1 : List (List Nat)) :
    (dispatch_active s r1).tasks = s.tasks := by
  cases hact : s.active_task with
  | none => rw [dispatch_active_none s r1 hact]
  | some aid =>
      by_cases hb : (tcb s aid).state = .TASK_BLOCKED
      · rw [dispatch_active_blocked s r1 aid hact hb]
      · by_cases hd : (tcb s aid).state = .TASK_DELAYED
        · rw [dispatch_active_delayed s r1 aid hact hb hd]
        · rw [dispatch_active_ready s r1 aid hact hb hd]

theorem select_eq (s : sched_state) (new : Nat) (rest : List Nat)
    (hhead : s.ready_tasks.getD (select_scan s.ready_tasks (RTOS_PRIORITY_COUNT - 1)) []
        = new :: rest) :
    select_active_task s =
      { dispatch_active s
          (s.ready_tasks.set (select_scan s.ready_tasks (RTOS_PRIORITY_COUNT - 1)) rest) with
        active_task := some new,
        tasks :=
          (dispatch_active s
            (s.ready_tasks.set (select_scan s.ready_tasks (RTOS_PRIORITY_COUNT - 1)) rest)).tasks.set
            new
            { tcb (dispatch_active s
                (s.ready_tasks.set (select_scan s.ready_tasks (RTOS_PRIORITY_COUNT - 1)) rest))
                new with
              state := .TASK_ACTIVE } } := by
  unfold select_active_task
  simp only [hhead, List.head?_cons, List.tail_cons]

/-- C4 amended: select_active_task makes ACTIVE the head of the
highest-priority non-empty ready queue (every queue above the scanned index
is empty), removes it from that queue — the scanned queue's post-state is its
tail, plus the previously ACTIVE task at its own priority's queue tail when
it is re-enqueued READY, and the new ACTIVE task is on no ready queue
afterwards — and dispatches the previously ACTIVE task (when non-null) to
the blocked list when BLOCKED, the delayed list when DELAYED, and otherwise
to ready-queue[its priority]; afterwards every ready task of priority
greater than the new ACTIVE task's priority is the previously ACTIVE task —
the previously ACTIVE task is dispatched after selection, so when it is
re-enqueued READY with higher priority the claim's unqualified
strict-priority invariant fails (see the counterexample). -/
theorem select_active_task_spec (s : sched_state) (new : Nat) (rest : List Nat)
    (hlen : s.ready_tasks.length = RTOS_PRIORITY_COUNT)
    (hinv : ∀ q id, id ∈ s.ready_tasks.getD q [] → (tcb s id).priority = q)
    (hbound : ∀ q id, id ∈ s.ready_tasks.getD q [] → id < s.tasks.length)
    (hap : ∀ aid, s.active_task = some aid → (tcb s aid).priority < RTOS_PRIORITY_COUNT)
    (hnd : ∀ q, q < RTOS_PRIORITY_COUNT → (s.ready_tasks.getD q []).Nodup)
    (hanr : ∀ aid, s.active_task = some aid →
        ∀ q, q < RTOS_PRIORITY_COUNT → aid ∉ s.ready_tasks.getD q [])
    (hhead : s.ready_tasks.getD (select_scan s.ready_tasks (RTOS_PRIORITY_COUNT - 1)) []
        = new :: rest) :
    (select_active_task s).active_task = some new ∧
    (tcb (select_active_task s) new).state = .TASK_ACTIVE ∧
    (∀ q, select_scan s.ready_tasks (RTOS_PRIORITY_COUNT - 1) < q →
        s.ready_tasks.getD q [] = []) ∧
    (s.active_task = none →
        (select_active_task s).blocked_tasks = s.blocked_tasks ∧
        (select_active_task s).delayed_tasks = s.delayed_tasks) ∧
    (∀ aid, s.active_task = some aid →
        ((tcb s aid).state = .TASK_BLOCKED →
            (select_active_task s).blocked_tasks = s.blocked_tasks ++ [aid] ∧
            (select_active_task s).delayed_tasks = s.delayed_tasks) ∧
        ((tcb s aid).state ≠ .TASK_BLOCKED → (tcb s aid).state = .TASK_DELAYED →
            (select_active_task s).delayed_tasks = s.delayed_tasks ++ [aid] ∧
            (select_active_task s).blocked_tasks = s.blocked_tasks) ∧
        ((tcb s aid).state ≠ .TASK_BLOCKED → (tcb s aid).state ≠ .TASK_DELAYED →
            aid ∈ (select_active_task s).ready_tasks.getD ((tcb s aid).priority) [])) ∧
    (∀ q id, id ∈ (select_active_task s).ready_tasks.getD q [] →
        (tcb (select_active_task s) new).priority
            < (tcb (select_active_task s) id).priority →
        s.active_task = some id) ∧
    (s.active_task = none →
        (select_active_task s).ready_tasks
          = s.ready_tasks.set (select_scan s.ready_tasks (RTOS_PRIORITY_COUNT - 1)) rest) ∧
    (∀ aid, s.active_task = some aid →
        ((tcb s aid).state = .TASK_BLOCKED ∨ (tcb s aid).state = .TASK_DELAYED →
            (select_active_task s).ready_tasks
              = s.ready_tasks.set (select_scan s.ready_tasks (RTOS_PRIORITY_COUNT - 1)) rest) ∧
        ((tcb s aid).state ≠ .TASK_BLOCKED → (tcb s aid).state ≠ .TASK_DELAYED →
            (select_active_task s).ready_tasks
              = (s.ready_tasks.set (select_scan s.ready_tasks (RTOS_PRIORITY_COUNT - 1)) rest).set
                  (tcb s aid).priority
                  (((s.ready_tasks.set (select_scan s.ready_tasks (RTOS_PRIORITY_COUNT - 1)) rest).getD
                      (tcb s aid).priority []) ++ [aid]))) ∧
    (∀ q, new ∉ (select_active_task s).ready_tasks.getD q []) := by
  have hi_le : select_scan s.ready_tasks (RTOS_PRIORITY_COUNT - 1)
      ≤ RTOS_PRIORITY_COUNT - 1 := select_scan_le _ _
  set i := select_scan s.ready_tasks (RTOS_PRIORITY_COUNT - 1) with hi
  have hi_lt : i < RTOS_PRIORITY_COUNT := by
    have : (RTOS_PRIORITY_COUNT : Nat) - 1 < RTOS_PRIORITY_COUNT := by decide
    omega
  have hnew_mem : new ∈ s.ready_tasks.getD i [] := by
    rw [hhead]; exact List.mem_cons_self _ _
  have hnew_lt : new < s.tasks.length := hbound i new hnew_mem
  have hnew_pr : (tcb s new).priority = i := hinv i new hnew_mem
  have hempty : ∀ q, i < q → s.ready_tasks.getD q [] = [] := by
    intro q hq
    by_cases h7 : q ≤ RTOS_PRIORITY_COUNT - 1
    · exact select_scan_empty_above _ _ q hq h7
    · exact List.getD_eq_default _ _ (by rw [hlen]; omega)
  have hsel := select_eq s new rest hhead
  rw [← hi] at hsel
  set r1 : List (List Nat) := s.ready_tasks.set i rest with hr1
  set s1 : sched_state := dispatch_active s r1 with hs1
  have hr1len : r1.length = RTOS_PRIORITY_COUNT := by
    rw [hr1, List.length_set, hlen]
  have hs1tasks : s1.tasks = s.tasks := dispatch_active_tasks s r1
  have htcb_s1 : ∀ id2, tcb s1 id2 = tcb s id2 := by
    intro id2
    unfold tcb
    rw [hs1tasks]
  -- membership in r1 implies membership in the original queues, with index at most i
  have hr1mem : ∀ q id, id ∈ r1.getD q [] → (tcb s id).priority = q ∧ q ≤ i := by
    intro q id hm
    by_cases hq : q = i
    · subst hq
      rw [hr1, getD_set_self _ _ _ _ (by rw [hlen]; exact hi_lt)] at hm
      have : id ∈ s.ready_tasks.getD i [] := by
        rw [hhead]; exact List.mem_cons_of_mem _ hm
      exact ⟨hinv i id this, le_refl i⟩
    · rw [hr1, getD_set_ne _ _ _ _ _ (fun hh => hq hh.symm)] at hm
      refine ⟨hinv q id hm, ?_⟩
      by_contra hqi
      have : s.ready_tasks.getD q [] = [] := hempty q (by omega)
      rw [this] at hm
      exact absurd hm (List.not_mem_nil id)
  -- priority of every task is unchanged by select_active_task
  have hpr : ∀ id, (tcb (select_active_task s) id).priority = (tcb s id).priority := by
    intro id
    rw [hsel]
    show ((s1.tasks.set new { tcb s1 new with state := .TASK_ACTIVE }).getD id default).priority
      = (tcb s id).priority
    by_cases hid : id = new
    · subst hid
      rw [getD_set_self _ _ _ _ (by rw [hs1tasks]; exact hnew_lt)]
      show (tcb s1 id).priority = (tcb s id).priority
      rw [htcb_s1 id]
    · rw [getD_set_ne _ _ _ _ _ (fun hh => hid hh.symm)]
      show (tcb s1 id).priority = (tcb s id).priority
      rw [htcb_s1 id]
  have hready_sel : (select_active_task s).ready_tasks = s1.ready_tasks := by
    rw [hsel]
  refine ⟨?_, ?_, ?_, ?_, ?_, ?_, ?_, ?_, ?_⟩
  · rw [hsel]
  · rw [hsel]
    show ((s1.tasks.set new { tcb s1 new with state := .TASK_ACTIVE }).getD new default).state
      = .TASK_ACTIVE
    rw [getD_set_self _ _ _ _ (by rw [hs1tasks]; exact hnew_lt)]
  · exact hempty
  · intro hnone
    rw [hsel, hs1, dispatch_active_none s r1 hnone]
    exact ⟨rfl, rfl⟩
  · intro aid hact
    refine ⟨?_, ?_, ?_⟩
    · intro hb
      rw [hsel, hs1, dispatch_active_blocked s r1 aid hact hb]
      exact ⟨rfl, rfl⟩
    · intro hb hd
      rw [hsel, hs1, dispatch_active_delayed s r1 aid hact hb hd]
      exact ⟨rfl, rfl⟩
    · intro hb hd
      rw [hready_sel, hs1, dispatch_active_ready s r1 aid hact hb hd]
      show aid ∈ (r1.set (tcb s aid).priority
        ((r1.getD (tcb s aid).priority []) ++ [aid])).getD ((tcb s aid).priority) []
      rw [getD_set_self _ _ _ _ (by rw [hr1len]; exact hap aid hact)]
      exact List.mem_append_right _ (List.mem_singleton.2 rfl)
  · intro q id hmem hgt
    rw [hpr id, hpr new, hnew_pr] at hgt
    rw [hready_sel] at hmem
    -- case on how the old active task was dispatched
    cases hact : s.active_task with
    | none =>
        rw [hs1, dispatch_active_none s r1 hact] at hmem
        have hm := hr1mem q id hmem
        omega
    | some aid =>
        by_cases hb : (tcb s aid).state = .TASK_BLOCKED
        · rw [hs1, dispatch_active_blocked s r1 aid hact hb] at hmem
          have hm := hr1mem q id hmem
          omega
        · by_cases hd : (tcb s aid).state = .TASK_DELAYED
          · rw [hs1, dispatch_active_delayed s r1 aid hact hb hd] at hmem
            have hm := hr1mem q id hmem
            omega
          · rw [hs1, dispatch_active_ready s r1 aid hact hb hd] at hmem
            by_cases hq : q = (tcb s aid).priority
            · subst hq
              rw [getD_set_self _ _ _ _ (by rw [hr1len]; exact hap aid hact)] at hmem
              rcases List.mem_append.1 hmem with hm | hm
              · have hm2 := hr1mem _ id hm
                omega
              · rw [List.mem_singleton.1 hm]
            · rw [getD_set_ne _ _ _ _ _ (fun hh => hq hh.symm)] at hmem
              have hm := hr1mem q id hmem
              omega
  · intro hnone
    rw [hready_sel, hs1, dispatch_active_none s r1 hnone]
  · intro aid hact
    constructor
    · intro hbd
      rcases hbd with hb | hdl
      · rw [hready_sel, hs1, dispatch_active_blocked s r1 aid hact hb]
      · have hb : ¬ (tcb s aid).state = .TASK_BLOCKED := by
          rw [hdl]
          intro hh
          exact task_state.noConfusion hh
        rw [hready_sel, hs1, dispatch_active_delayed s r1 aid hact hb hdl]
    · intro hb hdl
      rw [hready_sel, hs1, dispatch_active_ready s r1 aid hact hb hdl]
  · intro q
    have hnewr1 : ∀ q2, new ∉ r1.getD q2 [] := by
      intro q2 hmem
      have hm := hr1mem q2 new hmem
      have hq2 : q2 = i := by rw [← hm.1, hnew_pr]
      subst hq2
      rw [hr1, getD_set_self _ _ _ _ (by rw [hlen]; exact hi_lt)] at hmem
      have hndi := hnd i hi_lt
      rw [hhead] at hndi
      exact (List.nodup_cons.1 hndi).1 hmem
    rw [hready_sel]
    cases hact : s.active_task with
    | none =>
        rw [hs1, dispatch_active_none s r1 hact]
        exact hnewr1 q
    | some aid =>
        have hane : aid ≠ new := fun he =>
          hanr aid hact i hi_lt (by rw [he]; exact hnew_mem)
        by_cases hb : (tcb s aid).state = .TASK_BLOCKED
        · rw [hs1, dispatch_active_blocked s r1 aid hact hb]
          exact hnewr1 q
        · by_cases hdl : (tcb s aid).state = .TASK_DELAYED
          · rw [hs1, dispatch_active_delayed s r1 aid hact hb hdl]
            exact hnewr1 q
          · rw [hs1, dispatch_active_ready s r1 aid hact hb hdl]
            show new ∉ (r1.set (tcb s aid).priority
              ((r1.getD (tcb s aid).priority []) ++ [aid])).getD q []
            by_cases hq : q = (tcb s aid).priority
            · subst hq
              rw [getD_set_self _ _ _ _ (by rw [hr1len]; exact hap aid hact)]
              intro hmem
              rcases List.mem_append.1 hmem with hm | hm
              · exact hnewr1 _ hm
              · exact hane (List.mem_singleton.1 hm).symm
            · rw [getD_set_ne _ _ _ _ _ (fun hh => hq hh.symm)]
              exact hnewr1 q

theorem ready_mem_cases (rt : List (List Nat)) (P : Nat → Nat → Prop) (n : Nat)
    (hlen : rt.length = n)
    (h : ∀ q, q < n → ∀ id, id ∈ rt.getD q [] → P q id) :
    ∀ q id, id ∈ rt.getD q [] → P q id := by
  intro q id hm
  by_cases hq : q < n
  · exact h q hq id hm
  · rw [List.getD_eq_default _ _ (by omega)] at hm
    exact absurd hm (List.not_mem_nil id)

/-- Closed instantiation of select_active_task_spec at select_example: the
selected task is the head of the highest non-empty ready queue and becomes
ACTIVE. -/
theorem select_active_task_spec_witness :
    (select_active_task select_example).active_task = some 1 ∧
    (tcb (select_active_task select_example) 1).state = .TASK_ACTIVE := by
  have h := select_active_task_spec select_example 1 []
    (by decide)
    (ready_mem_cases _ _ RTOS_PRIORITY_COUNT (by decide) (by decide))
    (ready_mem_cases _ _ RTOS_PRIORITY_COUNT (by decide) (by decide))
    (by
      intro aid ha
      have ha2 : (some 0 : Option Nat) = some aid := ha
      injection ha2 with hh
      rw [← hh]
      decide)
    (by decide)
    (by
      intro aid ha
      have ha2 : (some 0 : Option Nat) = some aid := ha
      injection ha2 with hh
      rw [← hh]
      decide)
    (by decide)
  exact ⟨h.1, h.2.1⟩

/-- The concrete pre-state of the unblock counterexample: task 0 is blocked on
a semaphore at priority 5; task 1 is the active task at priority 3. -/
def unblock_example : sched_state :=
  { active_task := some 1,
    ready_tasks := [[], [], [], [], [], [], []],
    delayed_tasks := [], blocked_tasks := [0], exited_tasks := [],
    tasks := [{ state := .TASK_BLOCKED, blockstate := BLOCK_SEMAPHORE, priority := 5 },
              { state := .TASK_ACTIVE, blockstate := 0, priority := 3 }],
    pendsv := false }

/-- C10 counterexample: unblocking task 0 (priority 5, blocked on
BLOCK_SEMAPHORE) while task 1 (priority 3) is active triggers the compiled-in
preemption branch, which calls task_yield: the ACTIVE task's state flips to
TASK_READY and the PendSV bit is raised — state outside task 0's own
record/list membership changes, refuting the claim's frame clause. -/
theorem unblock_task_counterexample :
    (tcb unblock_example 1).state = .TASK_ACTIVE ∧
    (tcb (unblock_task unblock_example (some 0) BLOCK_SEMAPHORE) 1).state
      = .TASK_READY ∧
    (unblock_task unblock_example (some 0) BLOCK_SEMAPHORE).pendsv = true ∧
    unblock_example.pendsv = false := by
  refine ⟨?_, ?_, ?_, ?_⟩ <;> decide

/-- C10 amended: unblock_task leaves the whole scheduler state unchanged
unless the handle is non-null, the task is BLOCKED and the recorded reason
matches; when the preconditions hold and the unblocked task's priority does
not exceed the active task's, only the task's own record (state := READY,
blockstate := BLOCK_NONE), the blocked list (its entry removed) and its
priority's ready queue (appended at the tail) change; when the unblocked
task's priority exceeds the active task's, the compiled-in preemption branch
additionally sets the active task's state to READY and raises PendSV. -/
theorem unblock_task_frame (s : sched_state) (tid : Nat) (reason : Int)
    (htid : tid < s.tasks.length)
    (hpr2 : (tcb s tid).priority < RTOS_PRIORITY_COUNT)
    (hlen : s.ready_tasks.length = RTOS_PRIORITY_COUNT) :
    (unblock_task s none reason = s) ∧
    (((tcb s tid).state ≠ .TASK_BLOCKED ∨ (tcb s tid).blockstate ≠ reason) →
        unblock_task s (some tid) reason = s) ∧
    ((tcb s tid).state = .TASK_BLOCKED → (tcb s tid).blockstate = reason →
      ∀ aid, s.active_task = some aid →
        ¬ (tcb s aid).priority < (tcb s tid).priority →
        ((unblock_task s (some tid) reason).active_task = s.active_task ∧
         (unblock_task s (some tid) reason).delayed_tasks = s.delayed_tasks ∧
         (unblock_task s (some tid) reason).exited_tasks = s.exited_tasks ∧
         (unblock_task s (some tid) reason).pendsv = s.pendsv ∧
         (∀ id, id ≠ tid → tcb (unblock_task s (some tid) reason) id = tcb s id) ∧
         tcb (unblock_task s (some tid) reason) tid
           = { tcb s tid with state := .TASK_READY, blockstate := BLOCK_NONE } ∧
         (unblock_task s (some tid) reason).blocked_tasks = s.blocked_tasks.erase tid ∧
         (∀ q, q ≠ (tcb s tid).priority →
            (unblock_task s (some tid) reason).ready_tasks.getD q []
              = s.ready_tasks.getD q []) ∧
         (unblock_task s (some tid) reason).ready_tasks.getD ((tcb s tid).priority) []
           = s.ready_tasks.getD ((tcb s tid).priority) [] ++ [tid])) ∧
    ((tcb s tid).state = .TASK_BLOCKED → (tcb s tid).blockstate = reason →
      ∀ aid, s.active_task = some aid → aid < s.tasks.length →
        (tcb s aid).priority < (tcb s tid).priority →
        (tcb (unblock_task s (some tid) reason) aid
            = { tcb s aid with state := .TASK_READY } ∧
         (unblock_task s (some tid) reason).pendsv = true)) := by
  refine ⟨rfl, ?_, ?_, ?_⟩
  · intro hcond
    unfold unblock_task
    simp only []
    rw [if_pos hcond]
  all_goals intro hb hr aid hact
  · intro hnp
    have hcond : ¬ ((tcb s tid).state ≠ .TASK_BLOCKED ∨ (tcb s tid).blockstate ≠ reason) := by
      simp [hb, hr]
    set s1 : sched_state :=
      { s with
        tasks := s.tasks.set tid
          { tcb s tid with state := .TASK_READY, blockstate := BLOCK_NONE },
        blocked_tasks := s.blocked_tasks.erase tid,
        ready_tasks := s.ready_tasks.set (tcb s tid).priority
          ((s.ready_tasks.getD (tcb s tid).priority []) ++ [tid]) } with hs1
    have hs1pr : (tcb s1 aid).priority = (tcb s aid).priority := by
      unfold tcb
      show ((s.tasks.set tid _).getD aid default).priority = _
      by_cases ha : aid = tid
      · subst ha
        rw [getD_set_self _ _ _ _ htid]
        rfl
      · rw [getD_set_ne _ _ _ _ _ (fun hh => ha hh.symm)]
    have hunb : unblock_task s (some tid) reason = s1 := by
      unfold unblock_task
      simp only []
      rw [if_neg hcond]
      show (match s1.active_task with
            | some aid2 =>
                if (tcb s1 aid2).priority < (tcb s tid).priority then task_yield s1 else s1
            | none => s1) = s1
      have hact1 : s1.active_task = some aid := hact
      rw [hact1]
      show (if (tcb s1 aid).priority < (tcb s tid).priority then task_yield s1 else s1) = s1
      rw [hs1pr, if_neg hnp]
    rw [hunb]
    refine ⟨rfl, rfl, rfl, rfl, ?_, ?_, rfl, ?_, ?_⟩
    · intro id hid
      unfold tcb
      show (s.tasks.set tid _).getD id default = s.tasks.getD id default
      rw [getD_set_ne _ _ _ _ _ (fun hh => hid hh.symm)]
    · unfold tcb
      show (s.tasks.set tid _).getD tid default = _
      rw [getD_set_self _ _ _ _ htid]
      rfl
    · intro q hq
      show (s.ready_tasks.set (tcb s tid).priority _).getD q [] = s.ready_tasks.getD q []
      rw [getD_set_ne _ _ _ _ _ (fun hh => hq hh.symm)]
    · show (s.ready_tasks.set (tcb s tid).priority _).getD ((tcb s tid).priority) [] = _
      rw [getD_set_self _ _ _ _ (by rw [hlen]; exact hpr2)]
  · intro haid hp
    have hcond : ¬ ((tcb s tid).state ≠ .TASK_BLOCKED ∨ (tcb s tid).blockstate ≠ reason) := by
      simp [hb, hr]
    have hat : aid ≠ tid := by
      intro hh
      rw [hh] at hp
      omega
    set s1 : sched_state :=
      { s with
        tasks := s.tasks.set tid
          { tcb s tid with state := .TASK_READY, blockstate := BLOCK_NONE },
        blocked_tasks := s.blocked_tasks.erase tid,
        ready_tasks := s.ready_tasks.set (tcb s tid).priority
          ((s.ready_tasks.getD (tcb s tid).priority []) ++ [tid]) } with hs1
    have hs1aid : tcb s1 aid = tcb s aid := by
      unfold tcb
      show (s.tasks.set tid _).getD aid default = s.tasks.getD aid default
      rw [getD_set_ne _ _ _ _ _ (fun hh => hat hh.symm)]
    have hyield : task_yield s1 =
        { s1 with
          tasks := s1.tasks.set aid { tcb s1 aid with state := .TASK_READY },
          pendsv := true } := by
      unfold task_yield
      have hact1 : s1.active_task = some aid := hact
      rw [hact1]
    have hunb : unblock_task s (some tid) reason = task_yield s1 := by
      unfold unblock_task
      simp only []
      rw [if_neg hcond]
      show (match s1.active_task with
            | some aid2 =>
                if (tcb s1 aid2).priority < (tcb s tid).priority then task_yield s1 else s1
            | none => s1) = task_yield s1
      have hact1 : s1.active_task = some aid := hact
      rw [hact1]
      show (if (tcb s1 aid).priority < (tcb s tid).priority then task_yield s1 else s1) = _
      rw [hs1aid, if_pos hp]
    rw [hunb, hyield]
    constructor
    · unfold tcb
      show (s1.tasks.set aid _).getD aid default = _
      rw [getD_set_self _ _ _ _ (by show aid < s1.tasks.length; rw [hs1]; simpa using haid)]
      have hs1aid2 : s1.tasks.getD aid default = s.tasks.getD aid default := hs1aid
      rw [hs1aid2]
    · rfl

/-- Closed instantiation of unblock_task_frame: unblocking the priority-2
blocked task 0 of a concrete state whose active task has priority 3 moves it
to ready queue 2, empties the blocked list and leaves PendSV clear. -/
def unblock_frame_example : sched_state :=
  { active_task := some 1,
    ready_tasks := [[], [], [], [], [], [], []],
    delayed_tasks := [], blocked_tasks := [0], exited_tasks := [],
    tasks := [{ state := .TASK_BLOCKED, blockstate := BLOCK_SEMAPHORE, priority := 2 },
              { state := .TASK_ACTIVE, blockstate := 0, priority := 3 }],
    pendsv := false }

theorem unblock_task_frame_witness :
    unblock_task unblock_frame_example none BLOCK_SEMAPHORE = unblock_frame_example ∧
    (unblock_task unblock_frame_example (some 0) BLOCK_SEMAPHORE).ready_tasks.getD 2 []
      = [0] ∧
    (unblock_task unblock_frame_example (some 0) BLOCK_SEMAPHORE).blocked_tasks = [] ∧
    (unblock_task unblock_frame_example (some 0) BLOCK_SEMAPHORE).pendsv = false := by
  have h := unblock_task_frame unblock_frame_example 0 BLOCK_SEMAPHORE
    (by decide) (by decide) (by decide)
  have h3 := h.2.2.1 (by decide) (by decide) 1 rfl (by decide)
  refine ⟨h.1, ?_, ?_, ?_⟩
  · have := h3.2.2.2.2.2.2.2.2
    simpa using this
  · have := h3.2.2.2.2.2.2.1
    simpa using this
  · exact h3.2.2.2.1

/-- list_state_t from list.h: the intrusive node, holding the container
back-pointer and the prev/next links.  Pointers are heap addresses (Nat) with
0 standing for the C NULL. -/
structure list_node where
  container : Nat
  next : Nat
  prev : Nat
  deriving DecidableEq, Repr

instance : Inhabited list_node := ⟨⟨0, 0, 0⟩⟩

/-- The heap of list_state_t nodes: address a holds the node stored at index
a of the list; address 0 is reserved for NULL and never holds a live node. -/
abbrev Heap := List list_node

/-- Heap read (pointer dereference). -/
def hget (h : Heap) (a : Nat) : list_node := h.getD a default

/-- Heap write through a pointer. -/
def hset (h : Heap) (a : Nat) (n : list_node) : Heap := h.set a n

/-- list_return_t from list.h. -/
inductive list_return
  | LST_BRK
  | LST_CONT
  | LST_REM
  deriving DecidableEq, Repr

/-- The first unlink store of list_remove:
`target->_prev->_next = target->_next;`. -/
def unlink_store1 (h : Heap) (target : Nat) : Heap :=
  hset h (hget h target).prev
    { hget h (hget h target).prev with next := (hget h target).next }

/-- The second unlink store of list_remove:
`target->_next->_prev = target->_prev;`; it re-reads target's links from the
heap it is given (the heap after the first store), exactly as the C does. -/
def unlink_store2 (h : Heap) (target : Nat) : Heap :=
  hset h (hget h target).next
    { hget h (hget h target).next with prev := (hget h target).prev }

/-- The three stores of list_remove: the two unlink stores in C order
followed by the clearing of the removed node's own links
(`target->_next = target->_prev = NULL;`). -/
def list_unlink (h : Heap) (target : Nat) : Heap :=
  hset (unlink_store2 (unlink_store1 h target) target) target
    { hget (unlink_store2 (unlink_store1 h target) target) target with
      next := 0, prev := 0 }

/-- The head computation of list_remove: `head = NULL` when the target is the
only entry (its next points to itself), then `head = head->_next` when the
target is the head; both reads see the original heap, since in the C they run
before the unlink stores. -/
def list_remove_newhead (h : Heap) (list target : Nat) : Nat :=
  if target = (if (hget h target).next = target then 0 else list) then
    (hget h (if (hget h target).next = target then 0 else list)).next
  else (if (hget h target).next = target then 0 else list)

/-- list_remove from list.c, transliterated: null parameters return NULL
without touching the heap; otherwise the function unlinks the target node and
returns the adjusted head. -/
def list_remove (h : Heap) (list : Nat) (target : Nat) : Heap × Nat :=
  if list = 0 ∨ target = 0 then (h, 0)
  else (list_unlink h target, list_remove_newhead h list target)

/-- The do-while loop of list_iterate: call the callback on `current`'s
container, advance to its next, and continue while the callback returned
LST_CONT and the walk has not come back around to the head.  Returns the
final value of `current`.  Fuel bounds the number of iterations; for a
well-formed circular list of n nodes the loop runs at most n times, and the
theorems instantiate the fuel accordingly. -/
def list_iterate_loop (h : Heap) (f : Nat → list_return) (head : Nat) :
    Nat → Nat → Nat
  | 0, current => current
  | fuel + 1, current =>
      if f (hget h current).container = .LST_CONT ∧ (hget h current).next ≠ head then
        list_iterate_loop h f head fuel (hget h current).next
      else (hget h current).next

/-- list_iterate from list.c: runs the do-while loop from the head and then
returns `current->_prev->_container`, the container of the last node the
callback saw; a null list gives NULL (0). -/
def list_iterate (h : Heap) (list : Nat) (f : Nat → list_return) (fuel : Nat) : Nat :=
  if list = 0 then 0
  else (hget h (hget h (list_iterate_loop h f list fuel list)).prev).container

/-- Both links of one edge of the circular list: a's next is b and b's prev
is a. -/
def edgeOK (h : Heap) (a b : Nat) : Bool :=
  ((hget h a).next == b) && ((hget h b).prev == a)

/-- chainOK h a l: starting from node a, the successive edges a→l₀→l₁→… all
hold in the heap. -/
def chainOK (h : Heap) : Nat → List Nat → Bool
  | _, [] => true
  | a, b :: rest => edgeOK h a b && chainOK h b rest

/-- The address list lists the circular list's nodes head to tail: starting
from the LAST node, every edge through the whole list (including the
wrap-around edge tail→head) holds.  The empty list is trivially circular. -/
def circularList (h : Heap) (addrs : List Nat) : Bool :=
  match addrs with
  | [] => true
  | _ => chainOK h (addrs.getLastD 0) addrs

/-- Well-formed list representation: distinct, non-null, in-bounds addresses
forming a circular doubly linked chain. -/
def listWF (h : Heap) (addrs : List Nat) : Prop :=
  addrs.Nodup ∧ (∀ a ∈ addrs, a ≠ 0 ∧ a < h.length) ∧ circularList h addrs = true

theorem edgeOK_iff (h : Heap) (a b : Nat) :
    edgeOK h a b = true ↔ ((hget h a).next = b ∧ (hget h b).prev = a) := by
  simp [edgeOK, Bool.and_eq_true]

theorem chainOK_cons (h : Heap) (a b : Nat) (rest : List Nat) :
    chainOK h a (b :: rest) = true ↔
      (edgeOK h a b = true ∧ chainOK h b rest = true) := by
  simp [chainOK, Bool.and_eq_true]

theorem chainOK_append (h : Heap) (l1 l2 : List Nat) :
    ∀ a, chainOK h a (l1 ++ l2) = true ↔
      (chainOK h a l1 = true ∧ chainOK h (l1.getLastD a) l2 = true) := by
  induction l1 with
  | nil => intro a; simp [chainOK]
  | cons b t ih =>
      intro a
      rw [List.cons_append, chainOK_cons, ih b, List.getLastD_cons, chainOK_cons]
      tauto

theorem chainOK_frame (h h' : Heap) :
    ∀ (l : List Nat) (a : Nat),
      (∀ x, x = a ∨ x ∈ l.dropLast → (hget h' x).next = (hget h x).next) →
      (∀ x, x ∈ l → (hget h' x).prev = (hget h x).prev) →
      chainOK h a l = true → chainOK h' a l = true := by
  intro l
  induction l with
  | nil => intro a _ _ _; rfl
  | cons b rest ih =>
      intro a hn hp hc
      rw [chainOK_cons] at hc ⊢
      obtain ⟨he, hcr⟩ := hc
      rw [edgeOK_iff] at he
      constructor
      · rw [edgeOK_iff]
        refine ⟨?_, ?_⟩
        · rw [hn a (Or.inl rfl)]; exact he.1
        · rw [hp b (List.mem_cons_self _ _)]; exact he.2
      · cases rest with
        | nil => rfl
        | cons c rr =>
            refine ih b ?_ ?_ hcr
            · intro x hx
              refine hn x (Or.inr ?_)
              show x ∈ (b :: c :: rr).dropLast
              rw [List.dropLast_cons₂]
              rcases hx with hx | hx
              · rw [hx]; exact List.mem_cons_self _ _
              · exact List.mem_cons_of_mem _ hx
            · intro x hx
              exact hp x (List.mem_cons_of_mem _ hx)

theorem hget_hset_self (h : Heap) (a : Nat) (n : list_node) (ha : a < h.length) :
    hget (hset h a n) a = n :=
  getD_set_self h a n default ha

theorem hget_hset_ne (h : Heap) (a b : Nat) (n : list_node) (hab : a ≠ b) :
    hget (hset h a n) b = hget h b :=
  getD_set_ne h a b n default hab

theorem hset_length (h : Heap) (a : Nat) (n : list_node) :
    (hset h a n).length = h.length :=
  List.length_set h a n

theorem getLastD_append (l1 l2 : List Nat) (d : Nat) :
    (l1 ++ l2).getLastD d = l2.getLastD (l1.getLastD d) := by
  induction l1 generalizing d with
  | nil => rfl
  | cons a l1 ih => rw [List.cons_append, List.getLastD_cons, List.getLastD_cons, ih]

theorem getLastD_mem (l : List Nat) (d : Nat) (h : l ≠ []) : l.getLastD d ∈ l := by
  induction l generalizing d with
  | nil => exact absurd rfl h
  | cons a l ih =>
      rw [List.getLastD_cons]
      cases l with
      | nil => exact List.mem_singleton.2 rfl
      | cons b t => exact List.mem_cons_of_mem _ (ih a (by simp))

theorem getLastD_irrel (a : Nat) (l : List Nat) (d1 d2 : Nat) :
    (a :: l).getLastD d1 = (a :: l).getLastD d2 := by
  rw [List.getLastD_cons, List.getLastD_cons]

theorem getLastD_not_mem_dropLast (l : List Nat) :
    ∀ d, l.Nodup → l.getLastD d ∉ l.dropLast := by
  induction l with
  | nil => intro d _ hm; exact absurd hm (List.not_mem_nil _)
  | cons a l ih =>
      intro d hnd
      cases l with
      | nil => intro hm; exact absurd hm (List.not_mem_nil _)
      | cons b t =>
          rw [List.getLastD_cons, List.dropLast_cons₂]
          intro hmem
          rcases List.mem_cons.1 hmem with he | hm
          · have hmm : (b :: t).getLastD a ∈ b :: t := getLastD_mem _ _ (by simp)
            rw [he] at hmm
            exact (List.nodup_cons.1 hnd).1 hmm
          · exact ih a (List.nodup_cons.1 hnd).2 hm

theorem unlink_vals (h : Heap) (t pred succ : Nat)
    (hpt : (hget h t).prev = pred) (hnt : (hget h t).next = succ)
    (htp : pred ≠ t) (hts : succ ≠ t)
    (hplen : pred < h.length) (hslen : succ < h.length) (htlen : t < h.length) :
    hget (list_unlink h t) t = { hget h t with next := 0, prev := 0 } ∧
    (pred ≠ succ →
      hget (list_unlink h t) pred = { hget h pred with next := succ } ∧
      hget (list_unlink h t) succ = { hget h succ with prev := pred }) ∧
    (pred = succ →
      hget (list_unlink h t) pred = { hget h pred with next := succ, prev := pred }) ∧
    (∀ x, x ≠ t → x ≠ pred → x ≠ succ → hget (list_unlink h t) x = hget h x) := by
  have hs1 : unlink_store1 h t = hset h pred { hget h pred with next := succ } := by
    unfold unlink_store1
    rw [hpt, hnt]
  have hl1 : (unlink_store1 h t).length = h.length := by
    rw [hs1, hset_length]
  have e1t : hget (unlink_store1 h t) t = hget h t := by
    rw [hs1]
    exact hget_hset_ne h pred t _ htp
  have hs2 : unlink_store2 (unlink_store1 h t) t
      = hset (unlink_store1 h t) succ
          { hget (unlink_store1 h t) succ with prev := pred } := by
    unfold unlink_store2
    rw [e1t, hnt, hpt]
  have hl2 : (unlink_store2 (unlink_store1 h t) t).length = h.length := by
    rw [hs2, hset_length, hl1]
  have e2t : hget (unlink_store2 (unlink_store1 h t) t) t = hget h t := by
    rw [hs2, hget_hset_ne _ _ _ _ hts, e1t]
  have hfin : list_unlink h t
      = hset (unlink_store2 (unlink_store1 h t) t) t
          { hget h t with next := 0, prev := 0 } := by
    unfold list_unlink
    rw [e2t]
  have c1 : hget (list_unlink h t) t = { hget h t with next := 0, prev := 0 } := by
    rw [hfin]
    exact hget_hset_self _ t _ (by rw [hl2]; exact htlen)
  have cgen : ∀ x, x ≠ t → x ≠ pred → x ≠ succ →
      hget (list_unlink h t) x = hget h x := by
    intro x hxt hxp hxs
    rw [hfin, hget_hset_ne _ _ _ _ (fun hh => hxt hh.symm), hs2,
      hget_hset_ne _ _ _ _ (fun hh => hxs hh.symm), hs1,
      hget_hset_ne _ _ _ _ (fun hh => hxp hh.symm)]
  refine ⟨c1, ?_, ?_, cgen⟩
  · intro hps
    constructor
    · rw [hfin, hget_hset_ne _ _ _ _ (fun hh => htp hh.symm), hs2,
        hget_hset_ne _ _ _ _ (fun hh => hps hh.symm), hs1]
      exact hget_hset_self h pred _ hplen
    · have e1s : hget (unlink_store1 h t) succ = hget h succ := by
        rw [hs1]
        exact hget_hset_ne h pred succ _ hps
      rw [hfin, hget_hset_ne _ _ _ _ (fun hh => hts hh.symm), hs2,
        hget_hset_self _ succ _ (by rw [hl1]; exact hslen), e1s]
  · intro hps
    subst hps
    rw [hfin, hget_hset_ne _ _ _ _ (fun hh => htp hh.symm), hs2,
      hget_hset_self _ pred _ (by rw [hl1]; exact hplen), hs1,
      hget_hset_self h pred _ hplen]

theorem unlink_vals_self (h : Heap) (t : Nat)
    (hpt : (hget h t).prev = t) (hnt : (hget h t).next = t) (htlen : t < h.length) :
    hget (list_unlink h t) t = { hget h t with next := 0, prev := 0 } ∧
    (∀ x, x ≠ t → hget (list_unlink h t) x = hget h x) := by
  have hs1 : unlink_store1 h t = hset h t { hget h t with next := t } := by
    unfold unlink_store1
    rw [hpt, hnt]
  have hl1 : (unlink_store1 h t).length = h.length := by
    rw [hs1, hset_length]
  have e1t : hget (unlink_store1 h t) t = { hget h t with next := t } := by
    rw [hs1]
    exact hget_hset_self h t _ htlen
  have e1tn : (hget (unlink_store1 h t) t).next = t := by rw [e1t]
  have hs2 : unlink_store2 (unlink_store1 h t) t
      = hset (unlink_store1 h t) t
          { hget (unlink_store1 h t) t with prev := (hget (unlink_store1 h t) t).prev } := by
    unfold unlink_store2
    rw [e1tn]
  have hl2 : (unlink_store2 (unlink_store1 h t) t).length = h.length := by
    rw [hs2, hset_length, hl1]
  have e2t : hget (unlink_store2 (unlink_store1 h t) t) t
      = { hget (unlink_store1 h t) t with prev := (hget (unlink_store1 h t) t).prev } := by
    rw [hs2]
    exact hget_hset_self _ t _ (by rw [hl1]; exact htlen)
  have hfin : list_unlink h t
      = hset (unlink_store2 (unlink_store1 h t) t) t
          { hget h t with next := 0, prev := 0 } := by
    unfold list_unlink
    rw [e2t, e1t]
  constructor
  · rw [hfin]
    exact hget_hset_self _ t _ (by rw [hl2]; exact htlen)
  · intro x hxt
    rw [hfin, hget_hset_ne _ _ _ _ (fun hh => hxt hh.symm), hs2,
      hget_hset_ne _ _ _ _ (fun hh => hxt hh.symm), hs1,
      hget_hset_ne _ _ _ _ (fun hh => hxt hh.symm)]

theorem newhead_self (h : Heap) (list t : Nat) (hnt : (hget h t).next = t) (ht0 : t ≠ 0) :
    list_remove_newhead h list t = 0 := by
  unfold list_remove_newhead
  rw [if_pos hnt, if_neg ht0]

theorem newhead_of_ne (h : Heap) (list t : Nat) (hnts : (hget h t).next ≠ t) :
    list_remove_newhead h list t = if t = list then (hget h list).next else list := by
  unfold list_remove_newhead
  rw [if_neg hnts]

theorem mem_of_mem_dropLast {l : List Nat} {x : Nat} (h : x ∈ l.dropLast) : x ∈ l := by
  induction l with
  | nil => exact absurd h (List.not_mem_nil x)
  | cons a t ih =>
      cases t with
      | nil => exact absurd h (List.not_mem_nil x)
      | cons b u =>
          rw [List.dropLast_cons₂] at h
          rcases List.mem_cons.1 h with hx | hx
          · rw [hx]; exact List.mem_cons_self _ _
          · exact List.mem_cons_of_mem _ (ih hx)

theorem set_oob {α : Type} (l : List α) (m : Nat) (x : α) (h : l.length ≤ m) :
    l.set m x = l := by
  induction l generalizing m with
  | nil => rfl
  | cons a t ih =>
      cases m with
      | zero => simp at h
      | succ m2 =>
          show a :: t.set m2 x = a :: t
          rw [ih m2 (Nat.le_of_succ_le_succ h)]

theorem hset_keep_container (h : Heap) (a : Nat) (n : list_node)
    (hv : n.container = (hget h a).container) :
    ∀ x, (hget (hset h a n) x).container = (hget h x).container := by
  intro x
  by_cases hx : x = a
  · subst hx
    by_cases hlt : x < h.length
    · rw [hget_hset_self _ _ _ hlt, hv]
    · unfold hset
      rw [set_oob _ _ _ (by omega)]
  · rw [hget_hset_ne _ _ _ _ (fun hh => hx hh.symm)]

theorem unlink_keep_container (h : Heap) (t : Nat) (x : Nat) :
    (hget (list_unlink h t) x).container = (hget h x).container := by
  unfold list_unlink
  rw [hset_keep_container (unlink_store2 (unlink_store1 h t) t) t
    { hget (unlink_store2 (unlink_store1 h t) t) t with next := 0, prev := 0 } rfl x]
  unfold unlink_store2
  rw [hset_keep_container (unlink_store1 h t) ((hget (unlink_store1 h t) t).next)
    { hget (unlink_store1 h t) ((hget (unlink_store1 h t) t).next) with
      prev := (hget (unlink_store1 h t) t).prev } rfl x]
  unfold unlink_store1
  rw [hset_keep_container h ((hget h t).prev)
    { hget h ((hget h t).prev) with next := (hget h t).next } rfl x]

theorem unlink_length (h : Heap) (t : Nat) :
    (list_unlink h t).length = h.length := by
  unfold list_unlink unlink_store2 unlink_store1
  rw [hset_length, hset_length, hset_length]

theorem unlink_clears (h : Heap) (t : Nat) (htlen : t < h.length) :
    (hget (list_unlink h t) t).next = 0 ∧ (hget (list_unlink h t) t).prev = 0 := by
  unfold list_unlink
  have hlen2 : (unlink_store2 (unlink_store1 h t) t).length = h.length := by
    unfold unlink_store2 unlink_store1
    rw [hset_length, hset_length]
  rw [hget_hset_self _ _ _ (by rw [hlen2]; exact htlen)]
  exact ⟨rfl, rfl⟩

theorem chainOK_after_unlink (h : Heap) (t pred succ : Nat) (L : List Nat)
    (hp1 : hget (list_unlink h t) pred = { hget h pred with next := succ })
    (hp2 : hget (list_unlink h t) succ = { hget h succ with prev := pred })
    (hgen : ∀ x, x ≠ t → x ≠ pred → x ≠ succ → hget (list_unlink h t) x = hget h x)
    (hcL : chainOK h succ L = true)
    (htL : t ∉ succ :: L) (hsL : succ ∉ L)
    (hpredL : pred ∉ L.dropLast) :
    chainOK (list_unlink h t) pred (succ :: L) = true := by
  rw [chainOK_cons]
  refine ⟨?_, ?_⟩
  · rw [edgeOK_iff, hp1, hp2]
    exact ⟨rfl, rfl⟩
  · apply chainOK_frame h (list_unlink h t) L succ
    · intro x hx
      rcases hx with hx | hx
      · rw [hx, hp2]
      · have hxL : x ∈ L := mem_of_mem_dropLast hx
        have hxt : x ≠ t := fun hh => htL (hh ▸ List.mem_cons_of_mem _ hxL)
        have hxp : x ≠ pred := fun hh => hpredL (hh ▸ hx)
        have hxs : x ≠ succ := fun hh => hsL (hh ▸ hxL)
        rw [hgen x hxt hxp hxs]
    · intro x hx
      have hxt : x ≠ t := fun hh => htL (hh ▸ List.mem_cons_of_mem _ hx)
      have hxs : x ≠ succ := fun hh => hsL (hh ▸ hx)
      by_cases hxp : x = pred
      · rw [hxp, hp1]
      · rw [hgen x hxt hxp hxs]
    · exact hcL

theorem remove_case_head (h : Heap) (t y0 : Nat) (ys' : List Nat)
    (hnd : (t :: y0 :: ys').Nodup)
    (hbnd : ∀ a ∈ t :: y0 :: ys', a ≠ 0 ∧ a < h.length)
    (hcirc : circularList h (t :: y0 :: ys') = true) :
    list_remove_newhead h t t = y0 ∧
    circularList (list_unlink h t) (y0 :: ys') = true := by
  have htlen : t < h.length := (hbnd t (List.mem_cons_self _ _)).2
  have hc : chainOK h ((y0 :: ys').getLastD t) (t :: y0 :: ys') = true := by
    have h0 : chainOK h ((t :: y0 :: ys').getLastD 0) (t :: y0 :: ys') = true := hcirc
    rw [List.getLastD_cons] at h0
    exact h0
  set la := (y0 :: ys').getLastD t with hla
  rw [chainOK_cons] at hc
  obtain ⟨he1, hc2⟩ := hc
  rw [chainOK_cons] at hc2
  obtain ⟨he2, hc3⟩ := hc2
  rw [edgeOK_iff] at he1 he2
  have htny : t ∉ y0 :: ys' := (List.nodup_cons.1 hnd).1
  have hys_nd : (y0 :: ys').Nodup := (List.nodup_cons.1 hnd).2
  have hlamem : la ∈ y0 :: ys' := by rw [hla]; exact getLastD_mem _ _ (by simp)
  have hlat : la ≠ t := fun hh => htny (hh ▸ hlamem)
  have hy0t : y0 ≠ t := fun hh => htny (hh ▸ List.mem_cons_self y0 ys')
  have hlalen : la < h.length := (hbnd la (List.mem_cons_of_mem t hlamem)).2
  have hy0len : y0 < h.length := (hbnd y0 (by simp)).2
  have hvals := unlink_vals h t la y0 he1.2 he2.1 hlat hy0t hlalen hy0len htlen
  constructor
  · rw [newhead_of_ne h t t (by rw [he2.1]; exact hy0t), if_pos rfl, he2.1]
  · show chainOK (list_unlink h t) ((y0 :: ys').getLastD 0) (y0 :: ys') = true
    have hlast_eq : (y0 :: ys').getLastD 0 = la := by
      rw [hla]; exact getLastD_irrel y0 ys' 0 t
    rw [hlast_eq, chainOK_cons]
    cases ys' with
    | nil =>
        have hlay0 : la = y0 := by rw [hla]; rfl
        refine ⟨?_, rfl⟩
        have hrec := hvals.2.2.1 hlay0
        rw [edgeOK_iff]
        refine ⟨?_, ?_⟩
        · rw [hrec]
        · rw [← hlay0, hrec]
    | cons z zs =>
        have hlazs : la ∈ z :: zs := by
          rw [hla, List.getLastD_cons]
          exact getLastD_mem _ _ (by simp)
        have hlane : la ≠ y0 :=
          fun hh => (List.nodup_cons.1 hys_nd).1 (hh ▸ hlazs)
        obtain ⟨hp1, hp2⟩ := hvals.2.1 hlane
        refine ⟨?_, ?_⟩
        · rw [edgeOK_iff, hp1, hp2]
          exact ⟨rfl, rfl⟩
        · apply chainOK_frame h (list_unlink h t) (z :: zs) y0
          · intro x hx
            rcases hx with hx | hx
            · rw [hx, hp2]
            · have hxys : x ∈ z :: zs := mem_of_mem_dropLast hx
              have hxt : x ≠ t :=
                fun hh => htny (hh ▸ List.mem_cons_of_mem y0 hxys)
              have hxla : x ≠ la := by
                have hnm : la ∉ (z :: zs).dropLast := by
                  rw [hla, List.getLastD_cons]
                  exact getLastD_not_mem_dropLast (z :: zs) y0 (List.nodup_cons.1 hys_nd).2
                exact fun hh => hnm (hh ▸ hx)
              have hxy0 : x ≠ y0 :=
                fun hh => (List.nodup_cons.1 hys_nd).1 (hh ▸ hxys)
              rw [hvals.2.2.2 x hxt hxla hxy0]
          · intro x hx
            have hxt : x ≠ t :=
              fun hh => htny (hh ▸ List.mem_cons_of_mem y0 hx)
            have hxy0 : x ≠ y0 :=
              fun hh => (List.nodup_cons.1 hys_nd).1 (hh ▸ hx)
            by_cases hxla : x = la
            · rw [hxla, hp1]
            · rw [hvals.2.2.2 x hxt hxla hxy0]
          · exact hc3

theorem remove_case_last (h : Heap) (t x0 : Nat) (xs' : List Nat)
    (hnd : ((x0 :: xs') ++ [t]).Nodup)
    (hbnd : ∀ a ∈ (x0 :: xs') ++ [t], a ≠ 0 ∧ a < h.length)
    (hcirc : circularList h ((x0 :: xs') ++ [t]) = true) :
    list_remove_newhead h x0 t = x0 ∧
    circularList (list_unlink h t) (x0 :: xs') = true := by
  have htlen : t < h.length := (hbnd t (by simp)).2
  have hc : chainOK h t ((x0 :: xs') ++ [t]) = true := by
    have h0 : chainOK h (((x0 :: xs') ++ [t]).getLastD 0) ((x0 :: xs') ++ [t]) = true :=
      hcirc
    rw [getLastD_append] at h0
    exact h0
  set pred := (x0 :: xs').getLastD t with hpred
  obtain ⟨hcxs, hct⟩ := (chainOK_append h (x0 :: xs') [t] t).1 hc
  rw [chainOK_cons] at hct
  have hept := (edgeOK_iff h pred t).1 hct.1
  rw [chainOK_cons] at hcxs
  obtain ⟨hetx, hcxs'⟩ := hcxs
  rw [edgeOK_iff] at hetx
  have hxs_nd : (x0 :: xs').Nodup := hnd.of_append_left
  have htnxs : t ∉ x0 :: xs' := fun hm =>
    List.disjoint_of_nodup_append hnd hm (by simp)
  have hpmem : pred ∈ x0 :: xs' := by rw [hpred]; exact getLastD_mem _ _ (by simp)
  have hpt : pred ≠ t := fun hh => htnxs (hh ▸ hpmem)
  have hx0t : x0 ≠ t := fun hh => htnxs (hh ▸ List.mem_cons_self x0 xs')
  have hplen : pred < h.length := (hbnd pred (List.mem_append_left _ hpmem)).2
  have hx0len : x0 < h.length := (hbnd x0 (by simp)).2
  have hvals := unlink_vals h t pred x0 hept.2 hetx.1 hpt hx0t hplen hx0len htlen
  constructor
  · rw [newhead_of_ne h x0 t (by rw [hetx.1]; exact hx0t),
      if_neg (fun hh => hx0t hh.symm)]
  · show chainOK (list_unlink h t) ((x0 :: xs').getLastD 0) (x0 :: xs') = true
    have hlast_eq : (x0 :: xs').getLastD 0 = pred := by
      rw [hpred]; exact getLastD_irrel x0 xs' 0 t
    rw [hlast_eq]
    cases xs' with
    | nil =>
        have hpx0 : pred = x0 := by rw [hpred]; rfl
        have hrec := hvals.2.2.1 hpx0
        rw [chainOK_cons]
        refine ⟨?_, rfl⟩
        rw [edgeOK_iff]
        refine ⟨?_, ?_⟩
        · rw [hrec]
        · rw [← hpx0, hrec]
    | cons z zs =>
        have hpzs : pred ∈ z :: zs := by
          rw [hpred, List.getLastD_cons]
          exact getLastD_mem _ _ (by simp)
        have hpne : pred ≠ x0 :=
          fun hh => (List.nodup_cons.1 hxs_nd).1 (hh ▸ hpzs)
        obtain ⟨hp1, hp2⟩ := hvals.2.1 hpne
        apply chainOK_after_unlink h t pred x0 (z :: zs) hp1 hp2 hvals.2.2.2 hcxs'
          htnxs (List.nodup_cons.1 hxs_nd).1
        rw [hpred, List.getLastD_cons]
        exact getLastD_not_mem_dropLast (z :: zs) x0 (List.nodup_cons.1 hxs_nd).2

theorem remove_case_mid (h : Heap) (t x0 y0 : Nat) (xs' ys' : List Nat)
    (hnd : ((x0 :: xs') ++ t :: y0 :: ys').Nodup)
    (hbnd : ∀ a ∈ (x0 :: xs') ++ t :: y0 :: ys', a ≠ 0 ∧ a < h.length)
    (hcirc : circularList h ((x0 :: xs') ++ t :: y0 :: ys') = true) :
    list_remove_newhead h x0 t = x0 ∧
    circularList (list_unlink h t) ((x0 :: xs') ++ y0 :: ys') = true := by
  have htlen : t < h.length := (hbnd t (by simp)).2
  have hla0 : ((x0 :: xs') ++ t :: y0 :: ys').getLastD 0 = (y0 :: ys').getLastD t := by
    rw [getLastD_append, List.getLastD_cons]
  have hc : chainOK h ((y0 :: ys').getLastD t) ((x0 :: xs') ++ t :: y0 :: ys') = true := by
    have h0 : chainOK h (((x0 :: xs') ++ t :: y0 :: ys').getLastD 0)
        ((x0 :: xs') ++ t :: y0 :: ys') = true := hcirc
    rw [hla0] at h0
    exact h0
  set la := (y0 :: ys').getLastD t with hla
  obtain ⟨hcxs, hcrest⟩ := (chainOK_append h (x0 :: xs') (t :: y0 :: ys') la).1 hc
  set pred := (x0 :: xs').getLastD la with hpred
  rw [chainOK_cons] at hcrest
  obtain ⟨hept, hcrest2⟩ := hcrest
  rw [chainOK_cons] at hcrest2
  obtain ⟨hety, hc3⟩ := hcrest2
  rw [edgeOK_iff] at hept hety
  -- nodup bookkeeping
  have hxs_nd : (x0 :: xs').Nodup := hnd.of_append_left
  have hcons_nd : (t :: y0 :: ys').Nodup := hnd.of_append_right
  have hdisj := List.disjoint_of_nodup_append hnd
  have htny : t ∉ y0 :: ys' := (List.nodup_cons.1 hcons_nd).1
  have hys_nd : (y0 :: ys').Nodup := (List.nodup_cons.1 hcons_nd).2
  have htnxs : t ∉ x0 :: xs' := fun hm => hdisj hm (List.mem_cons_self _ _)
  have hpmem : pred ∈ x0 :: xs' := by rw [hpred]; exact getLastD_mem _ _ (by simp)
  have hlamem : la ∈ y0 :: ys' := by rw [hla]; exact getLastD_mem _ _ (by simp)
  have hpt : pred ≠ t := fun hh => htnxs (hh ▸ hpmem)
  have hy0t : y0 ≠ t := fun hh => htny (hh ▸ List.mem_cons_self y0 ys')
  have hpy0 : pred ≠ y0 := fun hh =>
    hdisj hpmem (by rw [hh]; exact List.mem_cons_of_mem t (List.mem_cons_self y0 ys'))
  have hplen : pred < h.length := (hbnd pred (List.mem_append_left _ hpmem)).2
  have hy0len : y0 < h.length :=
    (hbnd y0 (List.mem_append_right _ (by simp))).2
  have hvals := unlink_vals h t pred y0 hept.2 hety.1 hpt hy0t hplen hy0len htlen
  obtain ⟨hp1, hp2⟩ := hvals.2.1 hpy0
  constructor
  · rw [newhead_of_ne h x0 t (by rw [hety.1]; exact hy0t),
      if_neg (fun hh => htnxs (by rw [hh]; exact List.mem_cons_self x0 xs'))]
  · show chainOK (list_unlink h t)
      (((x0 :: xs') ++ y0 :: ys').getLastD 0) ((x0 :: xs') ++ y0 :: ys') = true
    have hlast_eq : ((x0 :: xs') ++ y0 :: ys').getLastD 0 = la := by
      rw [getLastD_append, hla]
      exact getLastD_irrel y0 ys' _ t
    rw [hlast_eq]
    rw [chainOK_append (list_unlink h t) (x0 :: xs') (y0 :: ys') la]
    have hlat : la ≠ t := fun hh => htny (hh ▸ hlamem)
    have hlap : la ≠ pred :=
      fun hh => hdisj (by rw [hh]; exact hpmem) (List.mem_cons_of_mem t hlamem)
    constructor
    · -- the prefix chain la → x0 → … survives the unlink untouched
      apply chainOK_frame h (list_unlink h t) (x0 :: xs') la
      · intro x hx
        rcases hx with hx | hx
        · by_cases hxy0 : x = y0
          · rw [hxy0, hp2]
          · rw [hvals.2.2.2 x (by rw [hx]; exact hlat)
              (by rw [hx]; exact hlap) hxy0]
        · have hxxs : x ∈ x0 :: xs' := mem_of_mem_dropLast hx
          have hxt : x ≠ t := fun hh => htnxs (hh ▸ hxxs)
          have hxy0 : x ≠ y0 := fun hh =>
            hdisj hxxs
              (by rw [hh]; exact List.mem_cons_of_mem t (List.mem_cons_self y0 ys'))
          have hxp : x ≠ pred := by
            have hnm : pred ∉ (x0 :: xs').dropLast := by
              rw [hpred]
              exact getLastD_not_mem_dropLast (x0 :: xs') la hxs_nd
            exact fun hh => hnm (hh ▸ hx)
          rw [hvals.2.2.2 x hxt hxp hxy0]
      · intro x hx
        have hxt : x ≠ t := fun hh => htnxs (hh ▸ hx)
        have hxy0 : x ≠ y0 := fun hh =>
          hdisj hx
            (by rw [hh]; exact List.mem_cons_of_mem t (List.mem_cons_self y0 ys'))
        by_cases hxp : x = pred
        · rw [hxp, hp1]
        · rw [hvals.2.2.2 x hxt hxp hxy0]
      · exact hcxs
    · exact chainOK_after_unlink h t pred y0 ys' hp1 hp2 hvals.2.2.2 hc3
        htny (List.nodup_cons.1 hys_nd).1
        (fun hm => hdisj hpmem
          (List.mem_cons_of_mem t (List.mem_cons_of_mem y0 (mem_of_mem_dropLast hm))))

/-- C8: list_remove on a well-formed nonempty circular list containing the
target detaches the target while preserving the order of the remaining nodes
(the heap still represents the circular list `xs ++ ys` and every node keeps
its container): if the removed node was the head (`xs = []`) the returned head
is the removed node's successor, and if the list had exactly one entry
(`xs = ys = []`) the returned head is NULL; the removed node's own links are
cleared. -/
theorem list_remove_spec (h : Heap) (t : Nat) (xs ys : List Nat)
    (hWF : listWF h (xs ++ t :: ys)) :
    (list_remove h ((xs ++ t :: ys).headD 0) t).2 = (xs ++ ys).headD 0 ∧
    listWF (list_remove h ((xs ++ t :: ys).headD 0) t).1 (xs ++ ys) ∧
    (hget (list_remove h ((xs ++ t :: ys).headD 0) t).1 t).next = 0 ∧
    (hget (list_remove h ((xs ++ t :: ys).headD 0) t).1 t).prev = 0 ∧
    ∀ a, (hget (list_remove h ((xs ++ t :: ys).headD 0) t).1 a).container =
      (hget h a).container := by
  obtain ⟨hnd, hbnd, hcirc⟩ := hWF
  have ht0 : t ≠ 0 := (hbnd t (by simp)).1
  have htlen : t < h.length := (hbnd t (by simp)).2
  have hhdmem : (xs ++ t :: ys).headD 0 ∈ xs ++ t :: ys := by
    cases xs with
    | nil => simp
    | cons a l => simp
  have hhd0 : (xs ++ t :: ys).headD 0 ≠ 0 := (hbnd _ hhdmem).1
  have hred : list_remove h ((xs ++ t :: ys).headD 0) t =
      (list_unlink h t, list_remove_newhead h ((xs ++ t :: ys).headD 0) t) := by
    unfold list_remove
    rw [if_neg (fun hc => Or.elim hc hhd0 ht0)]
  rw [hred]
  have hsub : (xs ++ ys).Sublist (xs ++ t :: ys) :=
    (List.sublist_cons_self t ys).append_left xs
  have hclr := unlink_clears h t htlen
  have hnd2 : (xs ++ ys).Nodup := List.Nodup.sublist hsub hnd
  have hbnd2 : ∀ a ∈ xs ++ ys, a ≠ 0 ∧ a < (list_unlink h t).length := by
    intro a ha
    have hmem := hbnd a (hsub.subset ha)
    rw [unlink_length]
    exact hmem
  have hcore : list_remove_newhead h ((xs ++ t :: ys).headD 0) t =
      (xs ++ ys).headD 0 ∧
      circularList (list_unlink h t) (xs ++ ys) = true := by
    cases xs with
    | nil =>
        cases ys with
        | nil =>
            have hc : chainOK h t [t] = true := hcirc
            rw [chainOK_cons] at hc
            have he := (edgeOK_iff h t t).1 hc.1
            exact ⟨newhead_self h t t he.1 ht0, rfl⟩
        | cons y0 ys2 =>
            exact remove_case_head h t y0 ys2 hnd hbnd hcirc
    | cons x0 xs2 =>
        cases ys with
        | nil =>
            have hcase := remove_case_last h t x0 xs2 hnd hbnd hcirc
            refine ⟨hcase.1, ?_⟩
            rw [List.append_nil]
            exact hcase.2
        | cons y0 ys2 =>
            exact remove_case_mid h t x0 y0 xs2 ys2 hnd hbnd hcirc
  exact ⟨hcore.1, ⟨hnd2, hbnd2, hcore.2⟩, hclr.1, hclr.2,
    fun a => unlink_keep_container h t a⟩

/-- Witness for list_remove_spec: removing the middle node 2 of the
three-node circular list 1 → 2 → 3 keeps head 1, and removing the head
node 1 of the same list returns its successor 2. -/
theorem list_remove_spec_witness :
    listWF [(default : list_node), ⟨10, 2, 3⟩, ⟨20, 3, 1⟩, ⟨30, 1, 2⟩]
      ([1] ++ 2 :: [3]) ∧
    (list_remove [(default : list_node), ⟨10, 2, 3⟩, ⟨20, 3, 1⟩, ⟨30, 1, 2⟩]
      (([1] ++ 2 :: [3]).headD 0) 2).2 = ([1] ++ [3]).headD 0 :=
  ⟨⟨by decide, by decide, by decide⟩,
    (list_remove_spec [(default : list_node), ⟨10, 2, 3⟩, ⟨20, 3, 1⟩, ⟨30, 1, 2⟩]
      2 [1] [3] ⟨by decide, by decide, by decide⟩).1⟩

/-- The next-pointer half of a chain: starting from node a, following _next
visits exactly the successive elements of the list. -/
def nextPath (h : Heap) : Nat → List Nat → Bool
  | _, [] => true
  | a, b :: rest => ((hget h a).next == b) && nextPath h b rest

theorem nextPath_cons (h : Heap) (a b : Nat) (rest : List Nat) :
    nextPath h a (b :: rest) = true ↔
      ((hget h a).next = b ∧ nextPath h b rest = true) := by
  simp [nextPath, Bool.and_eq_true]

theorem chainOK_nextPath (h : Heap) :
    ∀ (l : List Nat) (a : Nat), chainOK h a l = true → nextPath h a l = true := by
  intro l
  induction l with
  | nil => intro a _; rfl
  | cons b rest ih =>
      intro a hc
      rw [chainOK_cons] at hc
      rw [nextPath_cons]
      exact ⟨((edgeOK_iff h a b).1 hc.1).1, ih b hc.2⟩

theorem nextPath_append (h : Heap) (l1 l2 : List Nat) :
    ∀ a, nextPath h a (l1 ++ l2) = true ↔
      (nextPath h a l1 = true ∧ nextPath h (l1.getLastD a) l2 = true) := by
  induction l1 with
  | nil => intro a; simp [nextPath]
  | cons b t ih =>
      intro a
      rw [List.cons_append, nextPath_cons, ih b, List.getLastD_cons, nextPath_cons]
      tauto

theorem circularList_eq (h : Heap) (addrs : List Nat) (hne : addrs ≠ []) :
    circularList h addrs = chainOK h (addrs.getLastD 0) addrs := by
  cases addrs with
  | nil => exact absurd rfl hne
  | cons a l => rfl

theorem list_iterate_loop_succ (h : Heap) (f : Nat → list_return)
    (hd fuel c : Nat) :
    list_iterate_loop h f hd (fuel + 1) c =
      if f (hget h c).container = .LST_CONT ∧ (hget h c).next ≠ hd then
        list_iterate_loop h f hd fuel (hget h c).next
      else (hget h c).next := rfl

theorem list_iterate_loop_run (h : Heap) (f : Nat → list_return) (hd : Nat) :
    ∀ (vs : List Nat) (c fuel : Nat),
      vs.length + 1 ≤ fuel →
      nextPath h c vs = true →
      (∀ a ∈ (c :: vs).dropLast, f (hget h a).container = .LST_CONT) →
      (∀ a ∈ vs, a ≠ hd) →
      (f (hget h (vs.getLastD c)).container ≠ .LST_CONT ∨
        (hget h (vs.getLastD c)).next = hd) →
      list_iterate_loop h f hd fuel c = (hget h (vs.getLastD c)).next := by
  intro vs
  induction vs with
  | nil =>
      intro c fuel hfuel hnp hcont hnem hstop
      obtain ⟨fuel2, rfl⟩ : ∃ k, fuel = k + 1 := ⟨fuel - 1, by omega⟩
      rw [list_iterate_loop_succ, if_neg]
      · rfl
      · intro hcc
        rcases hstop with hs | hs
        · exact hs hcc.1
        · exact hcc.2 hs
  | cons d vs2 ih =>
      intro c fuel hfuel hnp hcont hnem hstop
      obtain ⟨fuel2, rfl⟩ : ∃ k, fuel = k + 1 := ⟨fuel - 1, by omega⟩
      rw [nextPath_cons] at hnp
      have hcc : f (hget h c).container = .LST_CONT :=
        hcont c (by rw [List.dropLast_cons₂]; exact List.mem_cons_self _ _)
      rw [list_iterate_loop_succ,
        if_pos ⟨hcc, by rw [hnp.1]; exact hnem d (List.mem_cons_self d vs2)⟩,
        hnp.1, List.getLastD_cons]
      rw [List.getLastD_cons] at hstop
      exact ih d fuel2 (by simp only [List.length_cons] at hfuel; omega) hnp.2
        (fun a ha =>
          hcont a (by rw [List.dropLast_cons₂]; exact List.mem_cons_of_mem c ha))
        (fun a ha => hnem a (List.mem_cons_of_mem d ha))
        hstop

/-- C9: list_iterate visits a well-formed circular list head to tail, stops at
the first node whose callback result is not LST_CONT (or at the tail when the
callback returns LST_CONT on every node), and returns that node's container;
a null list returns NULL.  Any non-CONT value stops the loop, LST_REM
included: see list_iterate_rem_counterexample. -/
theorem list_iterate_spec (h : Heap) (f : Nat → list_return) (xs ys : List Nat)
    (b : Nat) (hWF : listWF h (xs ++ b :: ys))
    (hcont : ∀ a ∈ xs, f (hget h a).container = .LST_CONT)
    (hstop : f (hget h b).container ≠ .LST_CONT ∨ ys = []) :
    list_iterate h ((xs ++ b :: ys).headD 0) f (xs ++ b :: ys).length =
      (hget h b).container ∧
    list_iterate h 0 f (xs ++ b :: ys).length = 0 := by
  obtain ⟨hnd, hbnd, hcirc⟩ := hWF
  refine ⟨?_, rfl⟩
  have hne : xs ++ b :: ys ≠ [] := by simp
  have hc : chainOK h ((xs ++ b :: ys).getLastD 0) (xs ++ b :: ys) = true := by
    rw [← circularList_eq h (xs ++ b :: ys) hne]
    exact hcirc
  have hkey : (hget h (hget h b).next).prev = b ∧
      (ys = [] → (hget h b).next = (xs ++ b :: ys).headD 0) := by
    cases ys with
    | cons y ys2 =>
        obtain ⟨hcxs, hcb⟩ :=
          (chainOK_append h xs (b :: y :: ys2) _).1 hc
        rw [chainOK_cons] at hcb
        obtain ⟨heb, hcy⟩ := hcb
        rw [chainOK_cons] at hcy
        have hey := (edgeOK_iff h b y).1 hcy.1
        refine ⟨?_, fun hys => absurd hys (by simp)⟩
        rw [hey.1]
        exact hey.2
    | nil =>
        have hla : (xs ++ [b]).getLastD 0 = b := by
          rw [getLastD_append, List.getLastD_cons]
          rfl
        rw [hla] at hc
        cases xs with
        | nil =>
            have hc2 : chainOK h b [b] = true := hc
            rw [chainOK_cons] at hc2
            have he := (edgeOK_iff h b b).1 hc2.1
            exact ⟨by rw [he.1]; exact he.2, fun _ => by rw [he.1]; rfl⟩
        | cons x0 xs2 =>
            have hc2 : chainOK h b ((x0 :: xs2) ++ [b]) = true := hc
            rw [List.cons_append, chainOK_cons] at hc2
            have he := (edgeOK_iff h b x0).1 hc2.1
            exact ⟨by rw [he.1]; exact he.2, fun _ => by rw [he.1]; rfl⟩
  cases xs with
  | nil =>
      have hb0 : b ≠ 0 := (hbnd b (by simp)).1
      have hrun := list_iterate_loop_run h f b [] b ((b :: ys).length)
        (by simp) rfl (fun a ha => absurd ha (by simp))
        (fun a ha => absurd ha (List.not_mem_nil a))
        (by
          rcases hstop with hs | hs
          · exact Or.inl hs
          · exact Or.inr (hkey.2 hs))
      show list_iterate h b f ((b :: ys).length) = (hget h b).container
      unfold list_iterate
      rw [if_neg hb0, hrun]
      show (hget h (hget h (hget h b).next).prev).container = (hget h b).container
      rw [hkey.1]
  | cons x0 xs2 =>
      have hx00 : x0 ≠ 0 := (hbnd x0 (by simp)).1
      obtain ⟨hcxs, hcb⟩ :=
        (chainOK_append h (x0 :: xs2) (b :: ys) _).1 hc
      rw [List.getLastD_cons] at hcb
      rw [chainOK_cons] at hcxs hcb
      have heb := (edgeOK_iff h (xs2.getLastD x0) b).1 hcb.1
      have hnp2 : nextPath h x0 (xs2 ++ [b]) = true := by
        rw [nextPath_append]
        refine ⟨chainOK_nextPath h xs2 x0 hcxs.2, ?_⟩
        rw [nextPath_cons]
        exact ⟨heb.1, rfl⟩
      have hdl : (x0 :: (xs2 ++ [b])).dropLast = x0 :: xs2 := by
        rw [← List.cons_append, List.dropLast_concat]
      rw [List.cons_append] at hnd
      have hx0nm : x0 ∉ xs2 ++ b :: ys := (List.nodup_cons.1 hnd).1
      have hglb : (xs2 ++ [b]).getLastD x0 = b := by
        rw [getLastD_append, List.getLastD_cons]
        rfl
      have hrun := list_iterate_loop_run h f x0 (xs2 ++ [b]) x0
        (((x0 :: xs2) ++ b :: ys).length)
        (by simp only [List.length_append, List.length_cons, List.length_nil]; omega)
        hnp2
        (fun a ha => hcont a (by rw [hdl] at ha; exact ha))
        (by
          intro a ha heq
          rcases List.mem_append.1 ha with h1 | h1
          · exact hx0nm (by rw [← heq]; exact List.mem_append_left _ h1)
          · have hb2 : a = b := List.mem_singleton.1 h1
            exact hx0nm (by
              rw [← heq, hb2]
              exact List.mem_append_right _ (List.mem_cons_self b ys)))
        (by
          rw [hglb]
          rcases hstop with hs | hs
          · exact Or.inl hs
          · exact Or.inr (hkey.2 hs))
      show list_iterate h x0 f (((x0 :: xs2) ++ b :: ys).length) =
        (hget h b).container
      unfold list_iterate
      rw [if_neg hx00, hrun, hglb]
      show (hget h (hget h (hget h b).next).prev).container = (hget h b).container
      rw [hkey.1]

/-- Witness for list_iterate_spec: on the three-node list 1 → 2 → 3 with
containers 10, 20, 30, a callback that answers LST_BRK exactly on container
20 makes list_iterate return 20, the container of the node it stopped on. -/
theorem list_iterate_spec_witness :
    listWF [(default : list_node), ⟨10, 2, 3⟩, ⟨20, 3, 1⟩, ⟨30, 1, 2⟩]
      ([1] ++ 2 :: [3]) ∧
    (∀ a ∈ [1], (fun c => if c = 20 then list_return.LST_BRK else .LST_CONT)
      (hget [(default : list_node), ⟨10, 2, 3⟩, ⟨20, 3, 1⟩, ⟨30, 1, 2⟩] a).container
      = .LST_CONT) ∧
    list_iterate [(default : list_node), ⟨10, 2, 3⟩, ⟨20, 3, 1⟩, ⟨30, 1, 2⟩]
      (([1] ++ 2 :: [3]).headD 0)
      (fun c => if c = 20 then list_return.LST_BRK else .LST_CONT)
      ([1] ++ 2 :: [3]).length =
      (hget [(default : list_node), ⟨10, 2, 3⟩, ⟨20, 3, 1⟩, ⟨30, 1, 2⟩]
        2).container :=
  ⟨⟨by decide, by decide, by decide⟩, by decide,
    (list_iterate_spec [(default : list_node), ⟨10, 2, 3⟩, ⟨20, 3, 1⟩, ⟨30, 1, 2⟩]
      (fun c => if c = 20 then list_return.LST_BRK else .LST_CONT) [1] [3] 2
      ⟨by decide, by decide, by decide⟩ (by decide) (Or.inl (by decide))).1⟩

/-- Counterexample for C9's stopping condition: the loop condition in
list_iterate is `ret == LST_CONT && current != head`, so iteration stops on
ANY value other than LST_CONT, not only LST_BRK.  On the two-node list
1 → 2 (containers 10, 20) a callback that always answers LST_REM — and thus
never answers LST_BRK — stops at the first node and list_iterate returns 10,
not the tail's container 20 that a full traversal would give. -/
theorem list_iterate_rem_counterexample :
    listWF [(default : list_node), ⟨10, 2, 2⟩, ⟨20, 1, 1⟩] [1, 2] ∧
    (∀ x : Nat, (fun _ => list_return.LST_REM) x ≠ .LST_BRK) ∧
    (hget [(default : list_node), ⟨10, 2, 2⟩, ⟨20, 1, 1⟩] 2).container = 20 ∧
    list_iterate [(default : list_node), ⟨10, 2, 2⟩, ⟨20, 1, 1⟩] 1
      (fun _ => list_return.LST_REM) 2 = 10 :=
  ⟨⟨by decide, by decide, by decide⟩, fun x h => list_return.noConfusion h,
    by decide, by decide⟩

end BMOS
